import Mathlib

/-
Verification of the query-preparation core of a compile-time SQL binding
generator (the `prepare_queries` module).  The data model and the
operations below are a shallow embedding of the source: pure Lean
functions mirror the Rust functions, `&mut` state is threaded explicitly
(each stateful operation returns its updated state), fallible operations
return an error component, and Rust panics (assert!, unwrap, unreachable!)
are modelled by a distinguished `panic` outcome.
-/

set_option linter.unusedVariables false
set_option linter.unreachableTactic false
set_option linter.unusedTactic false
set_option maxRecDepth 16000

/-- Outcome of a Rust computation: normal result, recoverable error
(`Result::Err`), or a panic (`assert!` failure / `unwrap` on `None`). -/
inductive RRes (ε α : Type) where
  | ok (a : α)
  | err (e : ε)
  | panic (msg : String)
  deriving DecidableEq, Repr

/-- Source position, used only for diagnostics. -/
structure Pos where
  line : Nat
  col : Nat
  deriving DecidableEq, Repr

/-- A value paired with its source position. -/
structure Parsed (α : Type) where
  value : α
  pos : Pos
  deriving DecidableEq, Repr

def Parsed.map {α β : Type} (p : Parsed α) (f : α → β) : Parsed β :=
  ⟨f p.value, p.pos⟩

/-- An identifier carrying an inline nullability marker (the parser's
nullable-ident item; `name()` and `is_nullable()` accessors). -/
structure NullableIdent where
  name : String
  is_nullable : Bool
  deriving DecidableEq, Repr

/-- A wire (database) type as reported by the prepared statement:
schema, name, and kind (base scalar, array, domain, enum, composite).
Composite fields are carried in database declaration order. -/
inductive PgType where
  | base (schema name : String)
  | arrayT (schema name : String) (elem : PgType)
  | domainT (schema name : String) (inner : PgType)
  | enumT (schema name : String) (variants : List String)
  | compositeT (schema name : String) (fields : List (String × PgType))

def PgType.schema : PgType → String
  | .base s _ | .arrayT s _ _ | .domainT s _ _ | .enumT s _ _ | .compositeT s _ _ => s

def PgType.name : PgType → String
  | .base _ n | .arrayT _ n _ | .domainT _ n _ | .enumT _ n _ | .compositeT _ n _ => n

/-- The kind payload that a registered `Custom` type keeps from its wire
type, as consumed by `prepare_type`: enum variants, a domain's inner type
key, or composite fields (field name together with the `(schema, name)`
key of the field's type, in declaration order).  Types are referenced by
their `(schema, name)` key, which is how the registrar's table is keyed. -/
inductive PgKindData where
  | enumData (variants : List String)
  | domainData (inner : String × String)
  | compositeData (fields : List (String × String × String))
  deriving DecidableEq, Repr

/-- Internal type universe (`CornucopiaType`): builtin scalar, array,
domain wrapper, or a user-defined `Custom` type (the only variant that
generates a type definition). -/
inductive CornucopiaType where
  | simple (pg_name : String) (is_copy : Bool)
  | array (inner : CornucopiaType)
  | domain (inner : CornucopiaType)
  | custom (pg_kind : PgKindData) (struct_name : String) (is_copy : Bool)
      (is_params : Bool) (schema : String) (name : String)
  deriving DecidableEq, Repr

/-- Copy semantics: scalars carry a flag, arrays are never copy, a domain
inherits from its base, a custom type carries its computed flag. -/
def CornucopiaType.is_copy : CornucopiaType → Bool
  | .simple _ c => c
  | .array _ => false
  | .domain i => i.is_copy
  | .custom _ _ c _ _ _ => c

/-- Modelled from the spec: `is_params` of a type handle (composites
containing only strings, scalars, and other params-compatible types). -/
def CornucopiaType.is_params : CornucopiaType → Bool
  | .simple _ _ => true
  | .array _ => false
  | .domain i => i.is_params
  | .custom _ _ _ p _ _ => p

/-- The registrar's table: `(schema, name) → CornucopiaType`, in
registration order. -/
abbrev Registrar := List ((String × String) × CornucopiaType)

/-- Error of the type registrar (module not under src; modelled from the
spec: `UnsupportedPostgresType` for types outside the supported set). -/
inductive RegError where
  | unsupportedPostgresType (schema name : String)
  deriving DecidableEq, Repr

/-- Modelled from the spec: the rendering of a type-registrar error. -/
def RegError.display : RegError → String
  | .unsupportedPostgresType s n => "Unsupported PostgreSQL type `" ++ s ++ "." ++ n ++ "`"

/-- Modelled from the spec: the static copy table for builtin scalars
(INT4/FLOAT8/UUID/TIMESTAMP are copy; TEXT/BYTEA/JSON are not); `none`
means the scalar is unsupported. -/
def builtinCopy (n : String) : Option Bool :=
  if n == "int4" || n == "float8" || n == "uuid" || n == "timestamp" then some true
  else if n == "text" || n == "bytea" || n == "json" then some false
  else none

/-- Lookup in the registrar's table by `(schema, name)` key. -/
def lookupReg (r : Registrar) (k : String × String) : Option CornucopiaType :=
  (r.find? (fun e => e.1 == k)).map (fun e => e.2)

/-- Modelled from the external `heck` crate at its interface:
UpperCamelCase of a snake_case identifier. -/
def capitalizeSegment (s : List Char) : List Char :=
  match s with
  | [] => []
  | c :: rest => c.toUpper :: rest.map Char.toLower

def splitUnderscore (s : List Char) : List (List Char) :=
  match s with
  | [] => [[]]
  | c :: rest =>
    let r := splitUnderscore rest
    if c == '_' then [] :: r
    else match r with
      | [] => [[c]]
      | seg :: segs => (c :: seg) :: segs

def toUpperCamelCase (s : String) : String :=
  ⟨((splitUnderscore s.toList).map capitalizeSegment).foldl (fun a b => a ++ b) []⟩

mutual
/-- Modelled from the spec (the type_registrar module is not under src):
`register(pg_type)` is idempotent, keyed by `(schema, name)`; builtin
scalars map to `Simple` with copyness from the static table, arrays and
domains register their element/base recursively, enums and composites
produce `Custom` entries; composite `is_copy`/`is_params` are the
conjunctions over the field types.  Unsupported scalars fail. -/
def register (r : Registrar) (t : PgType) : Except RegError (CornucopiaType × Registrar) :=
  match lookupReg r (t.schema, t.name), t with
  | some c, _ => .ok (c, r)
  | none, .base s n =>
    match builtinCopy n with
    | some c => let ty := CornucopiaType.simple n c; .ok (ty, r ++ [((s, n), ty)])
    | none => .error (.unsupportedPostgresType s n)
  | none, .arrayT s n e => do
    let (ei, r₁) ← register r e
    let ty := CornucopiaType.array ei
    .ok (ty, r₁ ++ [((s, n), ty)])
  | none, .domainT s n i => do
    let (ii, r₁) ← register r i
    let ty := CornucopiaType.domain ii
    .ok (ty, r₁ ++ [((s, n), ty)])
  | none, .enumT s n vs =>
    let ty := CornucopiaType.custom (.enumData vs) (toUpperCamelCase n) true true s n
    .ok (ty, r ++ [((s, n), ty)])
  | none, .compositeT s n fs => do
    let (ftys, r₁) ← registerFields r fs
    let ty := CornucopiaType.custom
      (.compositeData (fs.map (fun f => (f.1, f.2.schema, f.2.name))))
      (toUpperCamelCase n) (ftys.all (fun a => a.is_copy)) (ftys.all (fun a => a.is_params)) s n
    .ok (ty, r₁ ++ [((s, n), ty)])
  termination_by sizeOf t

/-- Modelled from the spec: register every composite field type in order,
collecting the field type handles. -/
def registerFields (r : Registrar) (fs : List (String × PgType)) :
    Except RegError (List CornucopiaType × Registrar) :=
  match fs with
  | [] => .ok ([], r)
  | (_, ft) :: rest => do
    let (ty, r₁) ← register r ft
    let (tys, r₂) ← registerFields r₁ rest
    .ok (ty :: tys, r₂)
  termination_by sizeOf fs
end

/-- Modelled from the spec: `ref_of` returns the handle already
registered for a wire type's `(schema, name)` key (the spec's type
closure invariant guarantees presence; the default is never observed). -/
def ref_of (registrar : Registrar) (key : String × String) : CornucopiaType :=
  (lookupReg registrar key).getD (.simple key.2 false)

/-- A wire column of a prepared statement. -/
structure Column where
  name : String
  ty : PgType

/-- A prepared statement: its typed parameters (in `$1..$N` order) and
its typed result columns (in projection order). -/
structure Statement where
  params : List PgType
  columns : List Column

/-- An error returned by the database client.  `as_db_error` is the
server-side error payload when one exists (it is `none` for e.g. a broken
connection), mirroring `postgres::Error::as_db_error`. -/
structure PgError where
  as_db_error : Option String
  deriving DecidableEq, Repr

/-- The database client at its interface: preparing a SQL text yields a
typed statement or a database error. -/
abbrev Client := String → Except PgError Statement

/-- A row or params field. -/
structure PreparedField where
  name : String
  ty : CornucopiaType
  is_nullable : Bool
  is_inner_nullable : Bool
  deriving DecidableEq, Repr

/-- A prepared query: its parameter fields, optionally an interned row
(`row_idx` into the module's row set plus the per-query column-index
vector), and its SQL. -/
structure PreparedQuery where
  name : String
  params : List PreparedField
  row : Option (Nat × List Nat)
  sql : String
  deriving DecidableEq, Repr

/-- A params struct: canonical (name-sorted) fields plus the back-edge
list of query indices that bind it. -/
structure PreparedParams where
  name : String
  fields : List PreparedField
  is_copy : Bool
  queries : List Nat
  deriving DecidableEq, Repr

/-- A returned row: canonical (name-sorted) fields. -/
structure PreparedRow where
  name : String
  fields : List PreparedField
  is_copy : Bool
  deriving DecidableEq, Repr

inductive PreparedContent where
  | enum (variants : List String)
  | domain (field : PreparedField)
  | composite (fields : List PreparedField)
  deriving DecidableEq, Repr

structure PreparedType where
  name : String
  struct_name : String
  content : PreparedContent
  is_copy : Bool
  is_params : Bool
  deriving DecidableEq, Repr

/-- A prepared module.  The three insertion-order-preserving `IndexMap`s
are modelled as association lists in insertion order. -/
structure PreparedModule where
  path : String
  name : String
  queries : List (String × PreparedQuery)
  params : List (String × PreparedParams)
  rows : List (String × PreparedRow)
  deriving DecidableEq, Repr

/-- The final IR: modules (sorted by name) and custom types bucketed by
schema. -/
structure Preparation where
  modules : List PreparedModule
  types : List (String × List PreparedType)
  deriving DecidableEq, Repr

/-- IndexMap lookup returning the entry's index and value (the `Entry`
API: an occupied entry exposes `o.index()` and `o.get()`). -/
def lookupIdx {α : Type} : List (String × α) → String → Option (Nat × α)
  | [], _ => none
  | (k, v) :: rest, key =>
    if k == key then some (0, v)
    else (lookupIdx rest key).map (fun p => (p.1 + 1, p.2))

/-- In-place modification of the value stored at a given index. -/
def indexMapModify {α : Type} : List (String × α) → Nat → (α → α) → List (String × α)
  | [], _, _ => []
  | e :: rest, 0, f => (e.1, f e.2) :: rest
  | e :: rest, n + 1, f => e :: indexMapModify rest n f

/-- IndexMap `insert_full`: an existing key keeps its position and has
its value replaced; a new key is appended.  Returns the entry's index. -/
def insertFull {α : Type} (m : List (String × α)) (k : String) (v : α) :
    List (String × α) × Nat :=
  match lookupIdx m k with
  | some (i, _) => (indexMapModify m i (fun _ => v), i)
  | none => (m ++ [(k, v)], m.length)

/-- Rust `Iterator::position`. -/
def position {α : Type} (p : α → Bool) : List α → Option Nat
  | [] => none
  | a :: rest => if p a then some 0 else (position p rest).map (fun n => n + 1)

/-- Rust `collect::<Option<Vec<_>>>`. -/
def sequenceOption {α : Type} : List (Option α) → Option (List α)
  | [] => some []
  | none :: _ => none
  | some a :: rest => (sequenceOption rest).map (fun l => a :: l)

/-- The canonical field order of an interned row or params struct:
`sort_unstable_by(|a, b| a.name.cmp(&b.name))`. -/
def sort_by_name (fs : List PreparedField) : List PreparedField :=
  fs.insertionSort (fun a b => a.name ≤ b.name)

/-- Validation errors (the validation module is not under src; the
variants are modelled from the spec). -/
inductive ValidationError where
  | incompatibleNamedStruct (name : String) (prev new_fields : List PreparedField)
  | unknownNullableColumn (name : String)
  | unknownNullableParam (name : String)
  | unknownNamedStruct (name : String)
  deriving DecidableEq, Repr

/-- Modelled from the spec: validation errors use their own rendering. -/
def ValidationError.display : ValidationError → String
  | .incompatibleNamedStruct n _ _ => "Named struct `" ++ n ++ "` is defined with incompatible fields"
  | .unknownNullableColumn n => "Unknown nullable column `" ++ n ++ "`"
  | .unknownNullableParam n => "Unknown nullable parameter `" ++ n ++ "`"
  | .unknownNamedStruct n => "Unknown named struct `" ++ n ++ "`"

/-- Modelled from the spec (validation module not under src): the
structural comparison of a previously interned (name-sorted) field list
against newly submitted fields; mismatch is `IncompatibleNamedStruct`. -/
def named_struct_field (path : String) (name : Parsed String)
    (prev fields : List PreparedField) : Except ValidationError Unit :=
  if sort_by_name fields = prev then .ok ()
  else .error (.incompatibleNamedStruct name.value prev fields)

/-- Modelled from the spec: a nullable-column reference must name an
actual statement column. -/
def nullable_column_name (path : String) (nullable_col : Parsed NullableIdent)
    (stmt_cols : List Column) : Except ValidationError Unit :=
  if stmt_cols.any (fun c => c.name == nullable_col.value.name) then .ok ()
  else .error (.unknownNullableColumn nullable_col.value.name)

/-- Modelled from the spec: a nullable-parameter reference must name an
actual bind parameter. -/
def nullable_param_name (path : String) (nullable_col : Parsed NullableIdent)
    (params : List (Parsed String × PgType)) : Except ValidationError Unit :=
  if params.any (fun p => p.1.value == nullable_col.value.name) then .ok ()
  else .error (.unknownNullableParam nullable_col.value.name)

/-- A user-declared type annotation (modelled from the spec: its `fields`
are the annotation's nullability-marked idents, consumed by the preparer
as the nullable-field list of the named struct). -/
structure TypeAnnotationListItem where
  name : Parsed String
  fields : List (Parsed NullableIdent)

/-- Modelled from the spec: resolve a `Named(X)` reference against the
module's annotation list, yielding its nullable idents. -/
def unknown_named_struct (path : String) (named : Parsed String)
    (types : List TypeAnnotationListItem) :
    Except ValidationError (List (Parsed NullableIdent)) :=
  match types.find? (fun t => t.name.value == named.value) with
  | some t => .ok t.fields
  | none => .error (.unknownNamedStruct named.value)

/-- Modelled from utils (not under src): the first item whose key was
already seen, here specialized to statement columns keyed by name. -/
def has_duplicate_go (seen : List String) : List Column → Option Column
  | [] => none
  | c :: rest => if seen.contains c.name then some c else has_duplicate_go (c.name :: seen) rest

def has_duplicate (cols : List Column) : Option Column :=
  has_duplicate_go [] cols

/-- The preparation error variants. -/
inductive ErrorVariant where
  | db (e : PgError)
  | postgresType (e : RegError)
  | validation (e : ValidationError)
  | duplicateSqlColName (name : String)
  deriving DecidableEq, Repr

/-- The `Display` of an error variant (thiserror `{0}` delegation; the
DuplicateSqlColName variant carries its own format string). -/
def ErrorVariant.display : ErrorVariant → String
  | .db e => (e.as_db_error).getD "database error"
  | .postgresType e => e.display
  | .validation e => e.display
  | .duplicateSqlColName name =>
    "Two or more columns have the same name: `" ++ name ++
      "`. Consider disambiguing the column names with `AS` clauses."

/-- A preparation error: the query name, the variant, and the file path. -/
structure Error where
  query_name : Parsed String
  err : ErrorVariant
  path : String
  deriving DecidableEq, Repr

def Error.new (e : ErrorVariant) (query_name : Parsed String) (path : String) : Error :=
  ⟨query_name, e, path⟩

/-- The `Display` implementation of `Error`.  `none` models the panic of
`e.as_db_error().unwrap()` when the database error carries no server
payload; every other arm renders a string. -/
def Error.fmt (e : Error) : Option String :=
  match e.err with
  | .db pe =>
    match pe.as_db_error with
    | some msg => some ("Error while preparing query \"" ++ e.query_name.value ++
        "\" [file: \"" ++ e.path ++ "\", line: " ++ toString e.query_name.pos.line ++
        "] (" ++ msg ++ ")")
    | none => none
  | .validation v => some v.display
  | _ => some ("Error while preparing query \"" ++ e.query_name.value ++
      "\" [file: \"" ++ e.path ++ "\", line: " ++ toString e.query_name.pos.line ++
      "]:\n" ++ e.err.display)

/-- Key lemma for the termination of the interning functions: inserting
a key makes its lookup succeed. -/
theorem lookupIdx_append_self {α : Type} (l : List (String × α)) (k : String) (v : α) :
    (lookupIdx (l ++ [(k, v)]) k).isSome := by
  induction l with
  | nil => simp [lookupIdx]
  | cons h t ih =>
    simp only [List.cons_append, lookupIdx]
    split
    · simp
    · simpa using ih

/-- `PreparedModule::add_row`: intern a row shape under its name.  A new
name stores the fields sorted by name and recurses (hitting the occupied
entry); an occupied entry is structurally validated and yields the
existing index plus the vector of positions, in the submitted list, of
each stored field. -/
def add_row (path : String) (rows : List (String × PreparedRow)) (name : Parsed String)
    (fields : List PreparedField) :
    List (String × PreparedRow) × RRes ErrorVariant (Nat × List Nat) :=
  if fields.isEmpty then (rows, .panic "assertion failed: !fields.is_empty()")
  else
    match h : lookupIdx rows name.value with
    | some (i, row) =>
      let prev := row.fields
      match named_struct_field path name prev fields with
      | .error e => (rows, .err (.validation e))
      | .ok _ =>
        match sequenceOption (prev.map (fun f => position (fun it => it == f) fields)) with
        | some indexes => (rows, .ok (i, indexes))
        | none => (rows, .panic "called Option::unwrap() on a None value")
    | none =>
      let is_copy := fields.all (fun f => f.ty.is_copy)
      let tmp := sort_by_name fields
      add_row path (rows ++ [(name.value, ⟨name.value, tmp, is_copy⟩)]) name fields
termination_by (if (lookupIdx rows name.value).isSome then 0 else 1)
decreasing_by simp [h, lookupIdx_append_self]

/-- `PreparedModule::add_param`: intern a params shape under its name for
the query at `query_idx` (whose params are the submitted fields).  A new
name stores the fields sorted by name and recurses; an occupied entry is
validated and the query index is appended to the back-edge list. -/
def add_param (path : String) (queries : List (String × PreparedQuery))
    (params : List (String × PreparedParams)) (name : Parsed String) (query_idx : Nat) :
    List (String × PreparedParams) × RRes ErrorVariant Nat :=
  match queries[query_idx]? with
  | none => (params, .panic "called Option::unwrap() on a None value")
  | some qe =>
    let fields := qe.2.params
    if fields.isEmpty then (params, .panic "assertion failed: !fields.is_empty()")
    else
      match h : lookupIdx params name.value with
      | some (i, prev) =>
        match named_struct_field path name prev.fields fields with
        | .error e => (params, .err (.validation e))
        | .ok _ =>
          (indexMapModify params i
            (fun p => { p with queries := p.queries ++ [query_idx] }), .ok i)
      | none =>
        let is_copy := fields.all (fun f => f.ty.is_copy)
        let tmp := sort_by_name fields
        add_param path queries (params ++ [(name.value, ⟨name.value, tmp, is_copy, []⟩)])
          name query_idx
termination_by (if (lookupIdx params name.value).isSome then 0 else 1)
decreasing_by simp [h, lookupIdx_append_self]

/-- `PreparedModule::add_query`: insert the prepared query, returning its
index. -/
def add_query (queries : List (String × PreparedQuery)) (name : String)
    (params : List PreparedField) (row_idx : Option (Nat × List Nat)) (sql : String) :
    List (String × PreparedQuery) × Nat :=
  insertFull queries name ⟨name, params, row_idx, sql⟩

/-- A query's params/row descriptor: implicit (nullable idents applied to
the auto-derived struct) or a reference to a named annotation. -/
inductive QueryDataStructure where
  | implicit (idents : List (Parsed NullableIdent))
  | named (name : Parsed String)

/-- A validated query: the legacy PgCompatible flavor (flat parameter
name list, flat nullable-column list) or the Extended flavor (descriptors
plus the ordered bind-parameter list). -/
inductive ValidatedQuery where
  | pgCompatible (name : Parsed String) (params : List (Parsed NullableIdent))
      (row : List (Parsed NullableIdent)) (sql_str : String)
  | extended (name : Parsed String) (params : QueryDataStructure)
      (bind_params : List (Parsed String)) (row : QueryDataStructure) (sql_str : String)

def ValidatedQuery.name : ValidatedQuery → Parsed String
  | .pgCompatible n _ _ _ => n
  | .extended n _ _ _ _ => n

def ValidatedQuery.sql_str : ValidatedQuery → String
  | .pgCompatible _ _ _ s => s
  | .extended _ _ _ _ s => s

/-- A validated module. -/
structure ValidatedModule where
  path : String
  name : String
  queries : List ValidatedQuery
  param_types : List TypeAnnotationListItem
  row_types : List TypeAnnotationListItem

/-- The PgCompatible parameter loop: for each declared parameter name
zipped with a statement parameter type, register the type and build a
`PreparedField` whose nullability is the ident's inline marker. -/
def register_param_fields_pg (registrar : Registrar)
    (pairs : List (Parsed NullableIdent × PgType)) (name : Parsed String) (path : String) :
    Registrar × Except Error (List PreparedField) :=
  match pairs with
  | [] => (registrar, .ok [])
  | (col_name, col_ty) :: rest =>
    match register registrar col_ty with
    | .error e => (registrar, .error (Error.new (.postgresType e) name path))
    | .ok (ty, r₁) =>
      let (r₂, res) := register_param_fields_pg r₁ rest name path
      (r₂, res.map (fun fs =>
        ⟨col_name.value.name, ty, col_name.value.is_nullable, false⟩ :: fs))

/-- The Extended parameter loop: for each bind parameter zipped with a
statement parameter type, register the type and build a `PreparedField`
whose nullability is membership in the nullable-idents list. -/
def register_param_fields_ext (registrar : Registrar)
    (pairs : List (Parsed String × PgType)) (nullable : List (Parsed NullableIdent))
    (name : Parsed String) (path : String) :
    Registrar × Except Error (List PreparedField) :=
  match pairs with
  | [] => (registrar, .ok [])
  | (col_name, col_ty) :: rest =>
    let is_nullable := nullable.any (fun x => x.value.name == col_name.value)
    match register registrar col_ty with
    | .error e => (registrar, .error (Error.new (.postgresType e) name path))
    | .ok (ty, r₁) =>
      let (r₂, res) := register_param_fields_ext r₁ rest nullable name path
      (r₂, res.map (fun fs => ⟨col_name.value, ty, is_nullable, false⟩ :: fs))

/-- The row-column loop shared by both flavors: for each statement
column, register its type and build a `PreparedField` whose nullability
is membership in the nullable-idents list. -/
def register_row_fields (registrar : Registrar) (cols : List Column)
    (nullable : List (Parsed NullableIdent)) (name : Parsed String) (path : String) :
    Registrar × Except Error (List PreparedField) :=
  match cols with
  | [] => (registrar, .ok [])
  | col :: rest =>
    let is_nullable := nullable.any (fun x => x.value.name == col.name)
    match register registrar col.ty with
    | .error e => (registrar, .error (Error.new (.postgresType e) name path))
    | .ok (ty, r₁) =>
      let (r₂, res) := register_row_fields r₁ rest nullable name path
      (r₂, res.map (fun fs => ⟨col.name, ty, is_nullable, false⟩ :: fs))

/-- The per-query loop over nullable-column references. -/
def check_nullable_cols (path : String) (nullable : List (Parsed NullableIdent))
    (cols : List Column) : Except ValidationError Unit :=
  match nullable with
  | [] => .ok ()
  | nc :: rest =>
    match nullable_column_name path nc cols with
    | .error e => .error e
    | .ok _ => check_nullable_cols path rest cols

/-- The per-query loop over nullable-parameter references. -/
def check_nullable_params (path : String) (nullable : List (Parsed NullableIdent))
    (params : List (Parsed String × PgType)) : Except ValidationError Unit :=
  match nullable with
  | [] => .ok ()
  | nc :: rest =>
    match nullable_param_name path nc params with
    | .error e => .error e
    | .ok _ => check_nullable_params path rest params

/-- The row-fields block of `prepare_query`: check for duplicate column
names (failing `DuplicateSqlColName`), validate the nullable-column
references, then register and build the row fields. -/
def build_row_fields (registrar : Registrar) (stmt_cols : List Column)
    (nullable : List (Parsed NullableIdent)) (name : Parsed String) (path : String) :
    Registrar × Except Error (List PreparedField) :=
  match has_duplicate stmt_cols with
  | some duplicate_col =>
    (registrar, .error (Error.new (.duplicateSqlColName duplicate_col.name) name path))
  | none =>
    match check_nullable_cols path nullable stmt_cols with
    | .error e => (registrar, .error (Error.new (.validation e) name path))
    | .ok _ => register_row_fields registrar stmt_cols nullable name path

/-- The Extended params block: zip bind parameters with statement
parameters, validate the nullable-parameter references, then register
and build the parameter fields. -/
def build_param_fields_ext (registrar : Registrar) (bind_params : List (Parsed String))
    (stmt_params : List PgType) (nullable : List (Parsed NullableIdent))
    (name : Parsed String) (path : String) :
    Registrar × Except Error (List PreparedField) :=
  let params := bind_params.zip stmt_params
  match check_nullable_params path nullable params with
  | .error e => (registrar, .error (Error.new (.validation e) name path))
  | .ok _ => register_param_fields_ext registrar params nullable name path

/-- The tail of `prepare_query`: intern the row (if the query has result
columns), insert the query, and intern the params struct (if the query
has parameters), threading the module's maps. -/
def finalize_query (module : PreparedModule) (registrar : Registrar)
    (query_name params_name : Parsed String) (params_fields : List PreparedField)
    (row_name : Parsed String) (row_fields : List PreparedField) (sql_str : String) :
    PreparedModule × Registrar × RRes Error Unit :=
  let params_empty := params_fields.isEmpty
  let rowStep : List (String × PreparedRow) × RRes Error (Option (Nat × List Nat)) :=
    if row_fields.isEmpty then (module.rows, .ok none)
    else
      match add_row module.path module.rows row_name row_fields with
      | (rows', .ok ri) => (rows', .ok (some ri))
      | (rows', .err e) => (rows', .err ⟨query_name, e, module.path⟩)
      | (rows', .panic m) => (rows', .panic m)
  match rowStep with
  | (rows', .err e) => ({ module with rows := rows' }, registrar, .err e)
  | (rows', .panic m) => ({ module with rows := rows' }, registrar, .panic m)
  | (rows', .ok row_idx) =>
    let (queries', query_idx) :=
      add_query module.queries query_name.value params_fields row_idx sql_str
    if params_empty then
      ({ module with rows := rows', queries := queries' }, registrar, .ok ())
    else
      match add_param module.path queries' module.params params_name query_idx with
      | (params', .ok _) =>
        ({ module with rows := rows', queries := queries', params := params' },
          registrar, .ok ())
      | (params', .err e) =>
        ({ module with rows := rows', queries := queries', params := params' },
          registrar, .err ⟨query_name, e, module.path⟩)
      | (params', .panic m) =>
        ({ module with rows := rows', queries := queries', params := params' },
          registrar, .panic m)

/-- `prepare_query`: prepare the SQL against the client, build the
parameter and row fields of the query's flavor, then intern row, query,
and params struct into the module. -/
def prepare_query (client : Client) (module : PreparedModule) (registrar : Registrar)
    (param_types row_types : List TypeAnnotationListItem) (query : ValidatedQuery) :
    PreparedModule × Registrar × RRes Error Unit :=
  match client query.sql_str with
  | .error e => (module, registrar, .err (Error.new (.db e) query.name module.path))
  | .ok stmt =>
    match query with
    | .pgCompatible name params row sql_str =>
      match register_param_fields_pg registrar (params.zip stmt.params) name module.path with
      | (r₁, .error e) => (module, r₁, .err e)
      | (r₁, .ok param_fields) =>
        match build_row_fields r₁ stmt.columns row name module.path with
        | (r₂, .error e) => (module, r₂, .err e)
        | (r₂, .ok row_fields) =>
          let params_name := name.map (fun x => toUpperCamelCase x ++ "Params")
          let row_name := name.map (fun x => toUpperCamelCase x)
          finalize_query module r₂ name params_name param_fields row_name row_fields sql_str
    | .extended name params bind_params row sql_str =>
      match (match params with
        | .implicit idents => .ok (name.map (fun x => toUpperCamelCase x ++ "Params"), idents)
        | .named named_params =>
          (unknown_named_struct module.path named_params param_types).map
            (fun idents => (named_params, idents)) :
          Except ValidationError (Parsed String × List (Parsed NullableIdent))) with
      | .error e => (module, registrar, .err (Error.new (.validation e) name module.path))
      | .ok (params_name, nullable_params_fields) =>
        match (match row with
          | .implicit idents => .ok (name.map (fun x => toUpperCamelCase x), idents)
          | .named named_row =>
            (unknown_named_struct module.path named_row row_types).map
              (fun idents => (named_row, idents)) :
            Except ValidationError (Parsed String × List (Parsed NullableIdent))) with
        | .error e => (module, registrar, .err (Error.new (.validation e) name module.path))
        | .ok (row_name, nullable_row_fields) =>
          match build_param_fields_ext registrar bind_params stmt.params
              nullable_params_fields name module.path with
          | (r₁, .error e) => (module, r₁, .err e)
          | (r₁, .ok param_fields) =>
            match build_row_fields r₁ stmt.columns nullable_row_fields name module.path with
            | (r₂, .error e) => (module, r₂, .err e)
            | (r₂, .ok row_fields) =>
              finalize_query module r₂ name params_name param_fields row_name row_fields
                sql_str

/-- The per-module query loop of `prepare_module`: the `?` operator
propagates the first failure, abandoning the remaining queries. -/
def prepare_queries_loop (client : Client) (module : PreparedModule)
    (registrar : Registrar) (param_types row_types : List TypeAnnotationListItem) :
    List ValidatedQuery → PreparedModule × Registrar × RRes Error Unit
  | [] => (module, registrar, .ok ())
  | q :: rest =>
    match prepare_query client module registrar param_types row_types q with
    | (m₁, r₁, .ok _) => prepare_queries_loop client m₁ r₁ param_types row_types rest
    | (m₁, r₁, .err e) => (m₁, r₁, .err e)
    | (m₁, r₁, .panic msg) => (m₁, r₁, .panic msg)

/-- `prepare_module`: prepare all queries of a validated module into a
fresh `PreparedModule`. -/
def prepare_module (client : Client) (registrar : Registrar)
    (validated_module : ValidatedModule) : Registrar × RRes Error PreparedModule :=
  let tmp : PreparedModule :=
    ⟨validated_module.path, validated_module.name, [], [], []⟩
  match prepare_queries_loop client tmp registrar validated_module.param_types
      validated_module.row_types validated_module.queries with
  | (m, r, .ok _) => (r, .ok m)
  | (_, r, .err e) => (r, .err e)
  | (_, r, .panic msg) => (r, .panic msg)

/-- `prepare_type`: only `Custom` registrar entries produce a
`PreparedType`; enum variants are copied, a domain yields a single
`inner` field, composite fields are mapped positionally (declaration
order), with nullability `false` throughout. -/
def prepare_type (registrar : Registrar) (name : String) (ty : CornucopiaType) :
    Option PreparedType :=
  match ty with
  | .custom pg_kind struct_name is_copy is_params _ _ =>
    match pg_kind with
    | .enumData variants =>
      some ⟨name, struct_name, .enum variants, is_copy, is_params⟩
    | .domainData inner =>
      some ⟨name, struct_name, .domain ⟨"inner", ref_of registrar inner, false, false⟩,
        is_copy, is_params⟩
    | .compositeData fields =>
      some ⟨name, struct_name,
        .composite (fields.map (fun field => ⟨field.1, ref_of registrar field.2, false, false⟩)),
        is_copy, is_params⟩
  | _ => none

/-- Append a prepared type to its schema's bucket (creating the bucket
on first use). -/
def bucket_types (types : List (String × List PreparedType)) (schema : String)
    (ty : PreparedType) : List (String × List PreparedType) :=
  match lookupIdx types schema with
  | some (i, _) => indexMapModify types i (fun l => l ++ [ty])
  | none => types ++ [(schema, [ty])]

/-- The type-scan loop of `prepare`: walk the registrar's table in
registration order, bucketing every prepared custom type by schema. -/
def scan_types_go (registrar : Registrar) (acc : List (String × List PreparedType)) :
    List ((String × String) × CornucopiaType) → List (String × List PreparedType)
  | [] => acc
  | e :: rest =>
    match prepare_type registrar e.1.2 e.2 with
    | some ty => scan_types_go registrar (bucket_types acc e.1.1 ty) rest
    | none => scan_types_go registrar acc rest

def scan_types (registrar : Registrar) : List (String × List PreparedType) :=
  scan_types_go registrar [] registrar

/-- The per-run module loop of `prepare`: the `?` operator propagates the
first failing module. -/
def prepare_modules_loop (client : Client) (registrar : Registrar) :
    List ValidatedModule → Registrar × RRes Error (List PreparedModule)
  | [] => (registrar, .ok [])
  | m :: rest =>
    match prepare_module client registrar m with
    | (r₁, .ok pm) =>
      match prepare_modules_loop client r₁ rest with
      | (r₂, .ok pms) => (r₂, .ok (pm :: pms))
      | (r₂, .err e) => (r₂, .err e)
      | (r₂, .panic msg) => (r₂, .panic msg)
    | (r₁, .err e) => (r₁, .err e)
    | (r₁, .panic msg) => (r₁, .panic msg)

/-- `prepare`: prepare all modules with a fresh registrar, sort the
modules by name for deterministic codegen, and scan the registrar for
custom types grouped by schema. -/
def prepare (client : Client) (modules : List ValidatedModule) : RRes Error Preparation :=
  match prepare_modules_loop client [] modules with
  | (r, .ok pms) =>
    .ok ⟨pms.insertionSort (fun a b => a.name ≤ b.name), scan_types r⟩
  | (_, .err e) => .err e
  | (_, .panic msg) => .panic msg

/-! Basic lemmas about the IndexMap model. -/

theorem lookupIdx_get {α : Type} {l : List (String × α)} {k : String} {i : Nat} {v : α}
    (h : lookupIdx l k = some (i, v)) : l.get? i = some (k, v) := by
  induction l generalizing i with
  | nil => simp [lookupIdx] at h
  | cons e rest ih =>
    simp only [lookupIdx] at h
    split at h
    · rename_i hk
      cases h
      have : e.1 = k := by simpa using hk
      cases e
      simp_all
    · rename_i hk
      match hr : lookupIdx rest k with
      | none => rw [hr] at h; simp at h
      | some (j, w) =>
        rw [hr] at h
        simp at h
        obtain ⟨hij, hvw⟩ := h
        subst hvw
        cases i with
        | zero => omega
        | succ i0 =>
          have : i0 = j := by omega
          subst this
          simpa using ih hr

theorem lookupIdx_none_iff {α : Type} (l : List (String × α)) (k : String) :
    lookupIdx l k = none ↔ ∀ e ∈ l, e.1 ≠ k := by
  induction l with
  | nil => simp [lookupIdx]
  | cons e rest ih =>
    simp only [lookupIdx, List.mem_cons]
    by_cases hk : (e.1 == k) = true
    · rw [if_pos hk]
      constructor
      · intro h; simp at h
      · intro h
        exact ((h e (Or.inl rfl)) (by simpa using hk)).elim
    · rw [if_neg hk]
      constructor
      · intro h e' he'
        rcases he' with he' | he'
        · subst he'; simpa using hk
        · have h0 : lookupIdx rest k = none := by
            cases hr : lookupIdx rest k
            · rfl
            · rw [hr] at h; simp at h
          exact (ih.mp h0) e' he'
      · intro h
        have h0 : lookupIdx rest k = none := ih.mpr (fun e' he' => h e' (Or.inr he'))
        rw [h0]; rfl

theorem lookupIdx_append_right {α : Type} {l : List (String × α)} {k : String} (v : α)
    (h : lookupIdx l k = none) : lookupIdx (l ++ [(k, v)]) k = some (l.length, v) := by
  induction l with
  | nil => simp [lookupIdx]
  | cons e rest ih =>
    simp only [lookupIdx] at h
    by_cases hk : (e.1 == k) = true
    · rw [if_pos hk] at h; simp at h
    · rw [if_neg hk] at h
      have h0 : lookupIdx rest k = none := by
        cases hr : lookupIdx rest k
        · rfl
        · rw [hr] at h; simp at h
      show lookupIdx (e :: (rest ++ [(k, v)])) k = some (rest.length + 1, v)
      simp only [lookupIdx, if_neg hk]
      rw [ih h0]
      rfl

theorem lookupIdx_append_left {α : Type} {l : List (String × α)} {k : String} {i : Nat}
    {v : α} (l₂ : List (String × α)) (h : lookupIdx l k = some (i, v)) :
    lookupIdx (l ++ l₂) k = some (i, v) := by
  induction l generalizing i with
  | nil => simp [lookupIdx] at h
  | cons e rest ih =>
    simp only [lookupIdx] at h
    by_cases hk : (e.1 == k) = true
    · rw [if_pos hk] at h
      show lookupIdx (e :: (rest ++ l₂)) k = some (i, v)
      simp only [lookupIdx, if_pos hk]
      exact h
    · rw [if_neg hk] at h
      match hr : lookupIdx rest k with
      | none => rw [hr] at h; simp at h
      | some (j, w) =>
        rw [hr] at h
        simp at h
        obtain ⟨hi, hw⟩ := h
        show lookupIdx (e :: (rest ++ l₂)) k = some (i, v)
        simp only [lookupIdx, if_neg hk]
        rw [ih (hw ▸ hr)]
        simp [hi]

theorem indexMapModify_lookup {α : Type} {l : List (String × α)} (i : Nat) (f : α → α)
    (k : String) :
    lookupIdx (indexMapModify l i f) k =
      (lookupIdx l k).map (fun p => (p.1, if p.1 = i then f p.2 else p.2)) := by
  induction l generalizing i with
  | nil => simp [lookupIdx, indexMapModify]
  | cons e rest ih =>
    cases i with
    | zero =>
      simp only [indexMapModify, lookupIdx]
      split
      · simp
      · match hr : lookupIdx rest k with
        | none => simp
        | some (j, w) => simp
    | succ n =>
      simp only [indexMapModify, lookupIdx]
      split
      · simp
      · rw [ih n]
        match hr : lookupIdx rest k with
        | none => simp
        | some (j, w) => simp

theorem indexMapModify_mem {α : Type} {l : List (String × α)} {i : Nat} {f : α → α}
    {e : String × α} (h : e ∈ indexMapModify l i f) :
    e ∈ l ∨ ∃ e₀, e₀ ∈ l ∧ e = (e₀.1, f e₀.2) := by
  induction l generalizing i with
  | nil => simp [indexMapModify] at h
  | cons e₁ rest ih =>
    cases i with
    | zero =>
      simp only [indexMapModify, List.mem_cons] at h
      rcases h with h | h
      · exact Or.inr ⟨e₁, by simp, h⟩
      · exact Or.inl (List.mem_cons_of_mem _ h)
    | succ n =>
      simp only [indexMapModify, List.mem_cons] at h
      rcases h with h | h
      · exact Or.inl (by simp [h])
      · rcases ih h with h1 | ⟨e₀, he₀, hval⟩
        · exact Or.inl (List.mem_cons_of_mem _ h1)
        · exact Or.inr ⟨e₀, List.mem_cons_of_mem _ he₀, hval⟩

theorem indexMapModify_append {α : Type} (l : List (String × α)) (k : String) (v : α)
    (f : α → α) : indexMapModify (l ++ [(k, v)]) l.length f = l ++ [(k, f v)] := by
  induction l with
  | nil => simp [indexMapModify]
  | cons e rest ih => simp [indexMapModify, ih]

theorem insertFull_fresh {α : Type} {m : List (String × α)} {k : String} (v : α)
    (h : lookupIdx m k = none) : insertFull m k v = (m ++ [(k, v)], m.length) := by
  simp [insertFull, h]

theorem insertFull_get {α : Type} {m m' : List (String × α)} {k : String} {v : α} {i : Nat}
    (h : insertFull m k v = (m', i)) : m'.get? i = some (k, v) := by
  unfold insertFull at h
  match hl : lookupIdx m k with
  | some (j, w) =>
    rw [hl] at h
    simp at h
    obtain ⟨hm, hi⟩ := h
    subst hm hi
    have hg := lookupIdx_get hl
    have := indexMapModify_lookup (l := m) j (fun _ => v) k
    rw [hl] at this
    simp at this
    exact lookupIdx_get this
  | none =>
    rw [hl] at h
    simp at h
    obtain ⟨hm, hi⟩ := h
    subst hm hi
    simp

/-! Lemmas about the auxiliary list operations. -/

theorem sequenceOption_length {α : Type} {l : List (Option α)} {l' : List α}
    (h : sequenceOption l = some l') : l'.length = l.length := by
  induction l generalizing l' with
  | nil => simp [sequenceOption] at h; simp [h]
  | cons o rest ih =>
    match o with
    | none => simp [sequenceOption] at h
    | some a =>
      simp only [sequenceOption] at h
      match hr : sequenceOption rest with
      | none => rw [hr] at h; simp at h
      | some l₀ =>
        rw [hr] at h
        simp at h
        subst h
        simp [ih hr]

theorem sequenceOption_get {α : Type} {l : List (Option α)} {l' : List α}
    (h : sequenceOption l = some l') {j : Nat} {x : α} (hx : l'[j]? = some x) :
    l[j]? = some (some x) := by
  induction l generalizing l' j with
  | nil => simp [sequenceOption] at h; subst h; simp at hx
  | cons o rest ih =>
    match o with
    | none => simp [sequenceOption] at h
    | some a =>
      simp only [sequenceOption] at h
      match hr : sequenceOption rest with
      | none => rw [hr] at h; simp at h
      | some l₀ =>
        rw [hr] at h
        simp at h
        subst h
        cases j with
        | zero => simp at hx; simp [hx]
        | succ j0 =>
          simp at hx
          simpa using ih hr hx

theorem sequenceOption_isSome {α : Type} {l : List (Option α)}
    (h : ∀ o ∈ l, o.isSome) : (sequenceOption l).isSome := by
  induction l with
  | nil => simp [sequenceOption]
  | cons o rest ih =>
    match o with
    | none => exact absurd (h none (by simp)) (by simp)
    | some a =>
      simp only [sequenceOption]
      have := ih (fun o ho => h o (List.mem_cons_of_mem _ ho))
      match hr : sequenceOption rest with
      | none => rw [hr] at this; simp at this
      | some l₀ => simp

theorem sequenceOption_map_some {α : Type} (l : List α) :
    sequenceOption (l.map some) = some l := by
  induction l with
  | nil => simp [sequenceOption]
  | cons a rest ih => simp [sequenceOption, ih]

theorem position_some {α : Type} {p : α → Bool} {l : List α} {n : Nat}
    (h : position p l = some n) : ∃ a, l[n]? = some a ∧ p a = true := by
  induction l generalizing n with
  | nil => simp [position] at h
  | cons a rest ih =>
    simp only [position] at h
    by_cases hp : p a = true
    · rw [if_pos hp] at h
      cases h
      exact ⟨a, by simp, hp⟩
    · rw [if_neg hp] at h
      match hr : position p rest with
      | none => rw [hr] at h; simp at h
      | some m =>
        rw [hr] at h
        simp at h
        obtain ⟨b, hb, hpb⟩ := ih hr
        subst h
        exact ⟨b, by simpa using hb, hpb⟩

theorem position_isSome {α : Type} {p : α → Bool} {l : List α}
    (h : ∃ a ∈ l, p a = true) : (position p l).isSome := by
  induction l with
  | nil => simp at h
  | cons a rest ih =>
    simp only [position]
    by_cases hp : p a = true
    · simp [if_pos hp]
    · rw [if_neg hp]
      obtain ⟨b, hb, hpb⟩ := h
      rcases List.mem_cons.mp hb with rfl | hb'
      · exact absurd hpb hp
      · have := ih ⟨b, hb', hpb⟩
        match hr : position p rest with
        | none => rw [hr] at this; simp at this
        | some m => simp

theorem position_self_of_nodup {α : Type} [DecidableEq α] {l : List α} {j : Nat} {a : α}
    (hnd : l.Nodup) (hj : l[j]? = some a) :
    position (fun it => it == a) l = some j := by
  induction l generalizing j with
  | nil => simp at hj
  | cons b rest ih =>
    cases j with
    | zero =>
      simp at hj
      subst hj
      simp [position]
    | succ j0 =>
      simp at hj
      have hmem : a ∈ rest := List.getElem?_mem hj
      have hba : b ≠ a := fun hba => (List.nodup_cons.mp hnd).1 (hba ▸ hmem)
      simp only [position]
      rw [if_neg (by simpa using hba)]
      rw [ih (List.nodup_cons.mp hnd).2 hj]
      rfl

/-! Lemmas about the canonical field sort. -/

theorem mem_sort_by_name {f : PreparedField} {l : List PreparedField} :
    f ∈ sort_by_name l ↔ f ∈ l :=
  (List.perm_insertionSort _ l).mem_iff

theorem sort_by_name_length (l : List PreparedField) :
    (sort_by_name l).length = l.length :=
  (List.perm_insertionSort _ l).length_eq

theorem sort_by_name_eq_self {l : List PreparedField}
    (h : List.Pairwise (fun a b => a.name < b.name) l) : sort_by_name l = l :=
  List.Sorted.insertionSort_eq (List.Pairwise.imp (fun hab => le_of_lt hab) h)

theorem nodup_of_name_sorted {l : List PreparedField}
    (h : List.Pairwise (fun a b => a.name < b.name) l) : l.Nodup :=
  List.Pairwise.imp (fun hab he => absurd (he ▸ hab) (lt_irrefl _)) h

/-! Characterization lemmas for the interning operations. -/

theorem named_struct_field_ok {path : String} {name : Parsed String}
    {prev fields : List PreparedField} {u : Unit}
    (h : named_struct_field path name prev fields = .ok u) :
    sort_by_name fields = prev := by
  unfold named_struct_field at h
  split at h
  · assumption
  · simp at h

theorem add_row_occupied {path : String} {rows : List (String × PreparedRow)}
    {name : Parsed String} {fields : List PreparedField} {i0 : Nat} {row0 : PreparedRow}
    (hne : fields.isEmpty = false) (hL : lookupIdx rows name.value = some (i0, row0)) :
    add_row path rows name fields =
      (match named_struct_field path name row0.fields fields with
      | .error e => (rows, .err (.validation e))
      | .ok _ =>
        match sequenceOption (row0.fields.map (fun f => position (fun it => it == f) fields)) with
        | some indexes => (rows, .ok (i0, indexes))
        | none => (rows, .panic "called Option::unwrap() on a None value")) := by
  rw [add_row]
  rw [if_neg (by simp [hne])]
  split
  · rename_i i row hEq
    rw [hL] at hEq
    cases Option.some.inj hEq
    rfl
  · rename_i hEq
    rw [hL] at hEq
    simp at hEq

theorem add_row_vacant {path : String} {rows : List (String × PreparedRow)}
    {name : Parsed String} {fields : List PreparedField}
    (hne : fields.isEmpty = false) (hL : lookupIdx rows name.value = none) :
    add_row path rows name fields =
      add_row path
        (rows ++ [(name.value,
          ⟨name.value, sort_by_name fields, fields.all (fun f => f.ty.is_copy)⟩)])
        name fields := by
  conv_lhs => rw [add_row]
  rw [if_neg (by simp [hne])]
  split
  · rename_i i row hEq
    rw [hL] at hEq
    simp at hEq
  · rfl

theorem add_row_ok_occupied {path : String} {rows rows' : List (String × PreparedRow)}
    {name : Parsed String} {fields : List PreparedField} {i0 i : Nat}
    {row0 : PreparedRow} {ixs : List Nat}
    (hne : fields.isEmpty = false) (hL : lookupIdx rows name.value = some (i0, row0))
    (h : add_row path rows name fields = (rows', RRes.ok (i, ixs))) :
    rows' = rows ∧ i = i0 ∧ sort_by_name fields = row0.fields ∧
      ixs.length = row0.fields.length ∧
      ∀ (j x : Nat), ixs[j]? = some x →
        ∃ fl, fields[x]? = some fl ∧ row0.fields[j]? = some fl := by
  rw [add_row_occupied hne hL] at h
  cases hns : named_struct_field path name row0.fields fields with
  | error e => rw [hns] at h; simp at h
  | ok u =>
    rw [hns] at h
    cases hsq : sequenceOption (row0.fields.map (fun f => position (fun it => it == f) fields)) with
    | none => rw [hsq] at h; simp at h
    | some idxs =>
      rw [hsq] at h
      simp at h
      obtain ⟨hr, hi, hx⟩ := h
      subst hr hi hx
      refine ⟨rfl, rfl, named_struct_field_ok hns, ?_, ?_⟩
      · have := sequenceOption_length hsq
        simpa using this
      · intro j x hjx
        have hmap := sequenceOption_get hsq hjx
        rw [List.getElem?_map] at hmap
        match hrow : row0.fields[j]? with
        | none => rw [hrow] at hmap; simp at hmap
        | some f =>
          rw [hrow] at hmap
          simp at hmap
          obtain ⟨a, ha, haf⟩ := position_some hmap
          have : a = f := by simpa using haf
          exact ⟨f, this ▸ ha, rfl⟩

theorem add_row_ok_spec {path : String} {rows rows' : List (String × PreparedRow)}
    {name : Parsed String} {fields : List PreparedField} {i : Nat} {ixs : List Nat}
    (h : add_row path rows name fields = (rows', RRes.ok (i, ixs))) :
    ∃ row : PreparedRow,
      (rows' = rows ∨
        (rows' = rows ++ [(name.value, row)] ∧ i = rows.length ∧
          row = ⟨name.value, sort_by_name fields, fields.all (fun f => f.ty.is_copy)⟩)) ∧
      lookupIdx rows' name.value = some (i, row) ∧
      sort_by_name fields = row.fields ∧
      ixs.length = row.fields.length ∧
      ∀ (j x : Nat), ixs[j]? = some x →
        ∃ fl, fields[x]? = some fl ∧ row.fields[j]? = some fl := by
  cases hne : fields.isEmpty with
  | true =>
    rw [add_row] at h
    simp [hne] at h
  | false =>
    match hL : lookupIdx rows name.value with
    | some (i0, row0) =>
      obtain ⟨hr, hi, hsort, hlen, hcorr⟩ := add_row_ok_occupied hne hL h
      subst hr hi
      exact ⟨row0, Or.inl rfl, hL, hsort, hlen, hcorr⟩
    | none =>
      rw [add_row_vacant hne hL] at h
      have hL2 := lookupIdx_append_right
        (⟨name.value, sort_by_name fields, fields.all (fun f => f.ty.is_copy)⟩ : PreparedRow) hL
      obtain ⟨hr, hi, hsort, hlen, hcorr⟩ := add_row_ok_occupied hne hL2 h
      subst hr
      exact ⟨_, Or.inr ⟨rfl, hi, rfl⟩, hi ▸ hL2, hsort, hlen, hcorr⟩

theorem add_row_no_panic_occupied {path : String} {rows : List (String × PreparedRow)}
    {name : Parsed String} {fields : List PreparedField} {i0 : Nat} {row0 : PreparedRow}
    {m : String}
    (hne : fields.isEmpty = false) (hL : lookupIdx rows name.value = some (i0, row0)) :
    (add_row path rows name fields).2 ≠ RRes.panic m := by
  rw [add_row_occupied hne hL]
  cases hns : named_struct_field path name row0.fields fields with
  | error e => simp
  | ok u =>
    have hs := named_struct_field_ok hns
    have hsome : (sequenceOption
        (row0.fields.map (fun f => position (fun it => it == f) fields))).isSome := by
      apply sequenceOption_isSome
      intro o ho
      simp at ho
      obtain ⟨f, hf, rfl⟩ := ho
      have hmem : f ∈ fields := mem_sort_by_name.mp (hs ▸ hf)
      have := position_isSome (p := fun it => it == f) ⟨f, hmem, by simp⟩
      exact this
    match hsq : sequenceOption (row0.fields.map (fun f => position (fun it => it == f) fields)) with
    | none => rw [hsq] at hsome; simp at hsome
    | some idxs => simp

theorem add_row_no_panic {path : String} {rows : List (String × PreparedRow)}
    {name : Parsed String} {fields : List PreparedField} {m : String}
    (hne : fields.isEmpty = false) :
    (add_row path rows name fields).2 ≠ RRes.panic m := by
  match hL : lookupIdx rows name.value with
  | some (i0, row0) => exact add_row_no_panic_occupied hne hL
  | none =>
    rw [add_row_vacant hne hL]
    exact add_row_no_panic_occupied hne (lookupIdx_append_right _ hL)

theorem add_row_err_variant {path : String} {rows rows' : List (String × PreparedRow)}
    {name : Parsed String} {fields : List PreparedField} {e : ErrorVariant}
    (h : add_row path rows name fields = (rows', RRes.err e)) :
    ∃ v, e = .validation v := by
  cases hne : fields.isEmpty with
  | true => rw [add_row] at h; simp [hne] at h
  | false =>
    have aux : ∀ (rws : List (String × PreparedRow)) (i0 : Nat) (row0 : PreparedRow),
        lookupIdx rws name.value = some (i0, row0) →
        add_row path rws name fields = (rows', RRes.err e) → ∃ v, e = .validation v := by
      intro rws i0 row0 hL h
      rw [add_row_occupied hne hL] at h
      cases hns : named_struct_field path name row0.fields fields with
      | error e0 =>
        rw [hns] at h
        simp at h
        exact ⟨e0, h.2.symm⟩
      | ok u =>
        rw [hns] at h
        cases hsq : sequenceOption
            (row0.fields.map (fun f => position (fun it => it == f) fields)) with
        | none => rw [hsq] at h; simp at h
        | some idxs => rw [hsq] at h; simp at h
    match hL : lookupIdx rows name.value with
    | some (i0, row0) => exact aux rows i0 row0 hL h
    | none =>
      rw [add_row_vacant hne hL] at h
      exact aux _ _ _ (lookupIdx_append_right _ hL) h

theorem add_param_occupied {path : String} {queries : List (String × PreparedQuery)}
    {params : List (String × PreparedParams)} {name : Parsed String} {query_idx : Nat}
    {qe : String × PreparedQuery} {i0 : Nat} {prev : PreparedParams}
    (hq : queries[query_idx]? = some qe) (hne : qe.2.params.isEmpty = false)
    (hL : lookupIdx params name.value = some (i0, prev)) :
    add_param path queries params name query_idx =
      (match named_struct_field path name prev.fields qe.2.params with
      | .error e => (params, .err (.validation e))
      | .ok _ =>
        (indexMapModify params i0
          (fun p => { p with queries := p.queries ++ [query_idx] }), .ok i0)) := by
  rw [add_param]
  simp only [hq]
  rw [if_neg (by simp [hne])]
  split
  · rename_i i pv hEq
    rw [hL] at hEq
    cases Option.some.inj hEq
    rfl
  · rename_i hEq
    rw [hL] at hEq
    simp at hEq

theorem add_param_vacant {path : String} {queries : List (String × PreparedQuery)}
    {params : List (String × PreparedParams)} {name : Parsed String} {query_idx : Nat}
    {qe : String × PreparedQuery}
    (hq : queries[query_idx]? = some qe) (hne : qe.2.params.isEmpty = false)
    (hL : lookupIdx params name.value = none) :
    add_param path queries params name query_idx =
      add_param path queries
        (params ++ [(name.value,
          ⟨name.value, sort_by_name qe.2.params,
            qe.2.params.all (fun f => f.ty.is_copy), []⟩)]) name query_idx := by
  conv_lhs => rw [add_param]
  simp only [hq]
  rw [if_neg (by simp [hne])]
  split
  · rename_i i pv hEq
    rw [hL] at hEq
    simp at hEq
  · rfl

theorem add_param_ok_spec {path : String} {queries : List (String × PreparedQuery)}
    {params params' : List (String × PreparedParams)} {name : Parsed String}
    {query_idx i : Nat}
    (h : add_param path queries params name query_idx = (params', RRes.ok i)) :
    ∃ qe : String × PreparedQuery, queries[query_idx]? = some qe ∧
      qe.2.params.isEmpty = false ∧
      ((∃ prev, lookupIdx params name.value = some (i, prev) ∧
          sort_by_name qe.2.params = prev.fields ∧
          params' = indexMapModify params i
            (fun p => { p with queries := p.queries ++ [query_idx] })) ∨
       (lookupIdx params name.value = none ∧ i = params.length ∧
          params' = params ++ [(name.value,
            ⟨name.value, sort_by_name qe.2.params,
              qe.2.params.all (fun f => f.ty.is_copy), [query_idx]⟩)])) := by
  match hq : queries[query_idx]? with
  | none =>
    rw [add_param] at h
    simp [hq] at h
  | some qe =>
    cases hne : qe.2.params.isEmpty with
    | true =>
      rw [add_param] at h
      simp only [hq] at h
      rw [if_pos (by simp [hne])] at h
      simp at h
    | false =>
      have aux : ∀ (ps ps' : List (String × PreparedParams)) (j : Nat) (i0 : Nat)
          (prev : PreparedParams), lookupIdx ps name.value = some (i0, prev) →
          add_param path queries ps name query_idx = (ps', RRes.ok j) →
          j = i0 ∧ sort_by_name qe.2.params = prev.fields ∧
            ps' = indexMapModify ps i0
              (fun p => { p with queries := p.queries ++ [query_idx] }) := by
        intro ps ps' j i0 prev hL h
        rw [add_param_occupied hq hne hL] at h
        cases hns : named_struct_field path name prev.fields qe.2.params with
        | error e => rw [hns] at h; simp at h
        | ok u =>
          rw [hns] at h
          simp at h
          exact ⟨h.2.symm, named_struct_field_ok hns, h.1.symm⟩
      match hL : lookupIdx params name.value with
      | some (i0, prev) =>
        obtain ⟨hj, hsort, hps⟩ := aux params params' i i0 prev hL h
        subst hj
        refine ⟨qe, ?_, ?_, Or.inl ⟨prev, ?_, hsort, hps⟩⟩
        · first | rfl | exact hq
        · first | rfl | exact hne
        · first | rfl | exact hL
      | none =>
        rw [add_param_vacant hq hne hL] at h
        have hL2 := lookupIdx_append_right
          (⟨name.value, sort_by_name qe.2.params,
            qe.2.params.all (fun f => f.ty.is_copy), []⟩ : PreparedParams) hL
        obtain ⟨hj, hsort, hps⟩ := aux _ params' i params.length _ hL2 h
        subst hj
        refine ⟨qe, ?_, ?_, Or.inr ⟨?_, rfl, ?_⟩⟩
        · first | rfl | exact hq
        · first | rfl | exact hne
        · first | rfl | exact hL
        · rw [hps, indexMapModify_append]
          simp

theorem add_param_no_panic {path : String} {queries : List (String × PreparedQuery)}
    {params : List (String × PreparedParams)} {name : Parsed String} {query_idx : Nat}
    {qe : String × PreparedQuery} {m : String}
    (hq : queries[query_idx]? = some qe) (hne : qe.2.params.isEmpty = false) :
    (add_param path queries params name query_idx).2 ≠ RRes.panic m := by
  have aux : ∀ (ps : List (String × PreparedParams)) (i0 : Nat) (prev : PreparedParams),
      lookupIdx ps name.value = some (i0, prev) →
      (add_param path queries ps name query_idx).2 ≠ RRes.panic m := by
    intro ps i0 prev hL
    rw [add_param_occupied hq hne hL]
    cases hns : named_struct_field path name prev.fields qe.2.params with
    | error e => simp
    | ok u => simp
  match hL : lookupIdx params name.value with
  | some (i0, prev) => exact aux params i0 prev hL
  | none =>
    rw [add_param_vacant hq hne hL]
    exact aux _ params.length _ (lookupIdx_append_right _ hL)

theorem add_param_err_variant {path : String} {queries : List (String × PreparedQuery)}
    {params params' : List (String × PreparedParams)} {name : Parsed String}
    {query_idx : Nat} {e : ErrorVariant}
    (h : add_param path queries params name query_idx = (params', RRes.err e)) :
    ∃ v, e = .validation v := by
  match hq : queries[query_idx]? with
  | none => rw [add_param] at h; simp [hq] at h
  | some qe =>
    cases hne : qe.2.params.isEmpty with
    | true =>
      rw [add_param] at h
      simp only [hq] at h
      rw [if_pos (by simp [hne])] at h
      simp at h
    | false =>
      have aux : ∀ (ps ps' : List (String × PreparedParams)) (i0 : Nat)
          (prev : PreparedParams), lookupIdx ps name.value = some (i0, prev) →
          add_param path queries ps name query_idx = (ps', RRes.err e) →
          ∃ v, e = .validation v := by
        intro ps ps' i0 prev hL h
        rw [add_param_occupied hq hne hL] at h
        cases hns : named_struct_field path name prev.fields qe.2.params with
        | error e0 =>
          rw [hns] at h
          simp at h
          exact ⟨e0, h.2.symm⟩
        | ok u => rw [hns] at h; simp at h
      match hL : lookupIdx params name.value with
      | some (i0, prev) => exact aux params params' i0 prev hL h
      | none =>
        rw [add_param_vacant hq hne hL] at h
        exact aux _ params' params.length _ (lookupIdx_append_right _ hL) h

/-! Characterization lemmas for the field builders. -/

theorem register_row_fields_spec {registrar r' : Registrar} {cols : List Column}
    {nullable : List (Parsed NullableIdent)} {name : Parsed String} {path : String}
    {fs : List PreparedField}
    (h : register_row_fields registrar cols nullable name path = (r', .ok fs)) :
    fs.length = cols.length ∧
      ∀ (j : Nat) (col : Column), cols[j]? = some col →
        ∃ ty ra rb, register ra col.ty = .ok (ty, rb) ∧
          fs[j]? = some ⟨col.name, ty,
            nullable.any (fun x => x.value.name == col.name), false⟩ := by
  induction cols generalizing registrar r' fs with
  | nil =>
    rw [register_row_fields] at h
    simp at h
    simp [h]
  | cons col rest ih =>
    rw [register_row_fields] at h
    cases hreg : register registrar col.ty with
    | error e => rw [hreg] at h; simp at h
    | ok p =>
      obtain ⟨ty, r₁⟩ := p
      rw [hreg] at h
      simp only at h
      match hrest : register_row_fields r₁ rest nullable name path with
      | (r₂, .error e) => rw [hrest] at h; simp [Except.map] at h
      | (r₂, .ok fs₀) =>
        rw [hrest] at h
        simp [Except.map] at h
        obtain ⟨hr2, hfs⟩ := h
        obtain ⟨hlen, hcorr⟩ := ih hrest
        constructor
        · simp [← hfs, hlen]
        · intro j c hc
          cases j with
          | zero =>
            simp at hc
            subst hc
            exact ⟨ty, registrar, r₁, hreg, by simp [← hfs]⟩
          | succ j0 =>
            simp at hc
            obtain ⟨ty', ra, rb, hreg', hget⟩ := hcorr j0 c hc
            exact ⟨ty', ra, rb, hreg', by simp [← hfs]; exact hget⟩

theorem register_row_fields_inner_false {registrar r' : Registrar} {cols : List Column}
    {nullable : List (Parsed NullableIdent)} {name : Parsed String} {path : String}
    {fs : List PreparedField}
    (h : register_row_fields registrar cols nullable name path = (r', .ok fs)) :
    ∀ f ∈ fs, f.is_inner_nullable = false := by
  induction cols generalizing registrar r' fs with
  | nil => rw [register_row_fields] at h; simp at h; simp [h]
  | cons col rest ih =>
    rw [register_row_fields] at h
    cases hreg : register registrar col.ty with
    | error e => rw [hreg] at h; simp at h
    | ok p =>
      obtain ⟨ty, r₁⟩ := p
      rw [hreg] at h
      simp only at h
      match hrest : register_row_fields r₁ rest nullable name path with
      | (r₂, .error e) => rw [hrest] at h; simp [Except.map] at h
      | (r₂, .ok fs₀) =>
        rw [hrest] at h
        simp [Except.map] at h
        obtain ⟨hr2, hfs⟩ := h
        intro f hf
        rw [← hfs] at hf
        rcases List.mem_cons.mp hf with rfl | hf0
        · rfl
        · exact ih hrest f hf0

theorem register_param_fields_pg_spec {registrar r' : Registrar}
    {pairs : List (Parsed NullableIdent × PgType)} {name : Parsed String} {path : String}
    {fs : List PreparedField}
    (h : register_param_fields_pg registrar pairs name path = (r', .ok fs)) :
    fs.length = pairs.length ∧ ∀ f ∈ fs, f.is_inner_nullable = false := by
  induction pairs generalizing registrar r' fs with
  | nil => rw [register_param_fields_pg] at h; simp at h; simp [h]
  | cons pr rest ih =>
    rw [register_param_fields_pg] at h
    cases hreg : register registrar pr.2 with
    | error e =>
      rw [hreg] at h
      simp at h
    | ok p =>
      obtain ⟨ty, r₁⟩ := p
      rw [hreg] at h
      simp only at h
      match hrest : register_param_fields_pg r₁ rest name path with
      | (r₂, .error e) => rw [hrest] at h; simp [Except.map] at h
      | (r₂, .ok fs₀) =>
        rw [hrest] at h
        simp [Except.map] at h
        obtain ⟨hr2, hfs⟩ := h
        obtain ⟨hlen, hinner⟩ := ih hrest
        refine ⟨by simp [← hfs, hlen], ?_⟩
        intro f hf
        rw [← hfs] at hf
        rcases List.mem_cons.mp hf with rfl | hf0
        · rfl
        · exact hinner f hf0

theorem register_param_fields_ext_spec {registrar r' : Registrar}
    {pairs : List (Parsed String × PgType)} {nullable : List (Parsed NullableIdent)}
    {name : Parsed String} {path : String} {fs : List PreparedField}
    (h : register_param_fields_ext registrar pairs nullable name path = (r', .ok fs)) :
    fs.length = pairs.length ∧ ∀ f ∈ fs, f.is_inner_nullable = false := by
  induction pairs generalizing registrar r' fs with
  | nil => rw [register_param_fields_ext] at h; simp at h; simp [h]
  | cons pr rest ih =>
    rw [register_param_fields_ext] at h
    cases hreg : register registrar pr.2 with
    | error e =>
      rw [hreg] at h
      simp at h
    | ok p =>
      obtain ⟨ty, r₁⟩ := p
      rw [hreg] at h
      simp only at h
      match hrest : register_param_fields_ext r₁ rest nullable name path with
      | (r₂, .error e) => rw [hrest] at h; simp [Except.map] at h
      | (r₂, .ok fs₀) =>
        rw [hrest] at h
        simp [Except.map] at h
        obtain ⟨hr2, hfs⟩ := h
        obtain ⟨hlen, hinner⟩ := ih hrest
        refine ⟨by simp [← hfs, hlen], ?_⟩
        intro f hf
        rw [← hfs] at hf
        rcases List.mem_cons.mp hf with rfl | hf0
        · rfl
        · exact hinner f hf0

theorem build_row_fields_dup {registrar : Registrar} {stmt_cols : List Column}
    {nullable : List (Parsed NullableIdent)} {name : Parsed String} {path : String}
    {dcol : Column} (h : has_duplicate stmt_cols = some dcol) :
    build_row_fields registrar stmt_cols nullable name path =
      (registrar, .error ⟨name, .duplicateSqlColName dcol.name, path⟩) := by
  unfold build_row_fields
  rw [h]
  exact rfl

theorem build_row_fields_ok {registrar r' : Registrar} {stmt_cols : List Column}
    {nullable : List (Parsed NullableIdent)} {name : Parsed String} {path : String}
    {fs : List PreparedField}
    (h : build_row_fields registrar stmt_cols nullable name path = (r', .ok fs)) :
    register_row_fields registrar stmt_cols nullable name path = (r', .ok fs) := by
  unfold build_row_fields at h
  cases hd : has_duplicate stmt_cols with
  | some c => rw [hd] at h; simp at h
  | none =>
    rw [hd] at h
    cases hc : check_nullable_cols path nullable stmt_cols with
    | error e => rw [hc] at h; simp at h
    | ok u => rw [hc] at h; exact h

theorem build_param_fields_ext_ok {registrar r' : Registrar}
    {bind_params : List (Parsed String)} {stmt_params : List PgType}
    {nullable : List (Parsed NullableIdent)} {name : Parsed String} {path : String}
    {fs : List PreparedField}
    (h : build_param_fields_ext registrar bind_params stmt_params nullable name path
      = (r', .ok fs)) :
    register_param_fields_ext registrar (bind_params.zip stmt_params) nullable name path
      = (r', .ok fs) := by
  simp only [build_param_fields_ext] at h
  cases hc : check_nullable_params path nullable (bind_params.zip stmt_params) with
  | error e => rw [hc] at h; simp at h
  | ok u => rw [hc] at h; exact h

theorem insertFull_getElem {α : Type} {m m' : List (String × α)} {k : String} {v : α}
    {i : Nat} (h : insertFull m k v = (m', i)) : m'[i]? = some (k, v) := by
  have := insertFull_get h
  rwa [List.get?_eq_getElem?] at this

/-! Characterization lemmas for the tail of prepare_query. -/

theorem finalize_query_ok_spec {module : PreparedModule} {registrar : Registrar}
    {query_name params_name : Parsed String} {params_fields : List PreparedField}
    {row_name : Parsed String} {row_fields : List PreparedField} {sql_str : String}
    {m' : PreparedModule} {r' : Registrar} {u : Unit}
    (h : finalize_query module registrar query_name params_name params_fields row_name
      row_fields sql_str = (m', r', .ok u)) :
    r' = registrar ∧ m'.path = module.path ∧ m'.name = module.name ∧
    ∃ row_idx : Option (Nat × List Nat),
      ((row_fields.isEmpty = true ∧ m'.rows = module.rows ∧ row_idx = none) ∨
       (row_fields.isEmpty = false ∧ ∃ p, add_row module.path module.rows row_name row_fields
          = (m'.rows, RRes.ok p) ∧ row_idx = some p)) ∧
      m'.queries =
        (add_query module.queries query_name.value params_fields row_idx sql_str).1 ∧
      ((params_fields.isEmpty = true ∧ m'.params = module.params) ∨
       (params_fields.isEmpty = false ∧ ∃ i2, add_param module.path m'.queries module.params
          params_name
          (add_query module.queries query_name.value params_fields row_idx sql_str).2
          = (m'.params, RRes.ok i2))) := by
  simp only [finalize_query] at h
  cases hre : row_fields.isEmpty with
  | true =>
    rw [if_pos (by simp [hre])] at h
    simp only at h
    match haq : add_query module.queries query_name.value params_fields none sql_str with
    | (queries', query_idx) =>
      rw [haq] at h
      simp only at h
      cases hpe : params_fields.isEmpty with
      | true =>
        rw [if_pos (by simp [hpe])] at h
        simp at h
        obtain ⟨hm, hr⟩ := h
        subst hm
        refine ⟨hr.symm, rfl, rfl, none, Or.inl ⟨rfl, rfl, rfl⟩, by simp [haq], Or.inl ⟨rfl, rfl⟩⟩
      | false =>
        rw [if_neg (by simp [hpe])] at h
        match hap : add_param module.path queries' module.params params_name query_idx with
        | (params', res) =>
          rw [hap] at h
          cases res with
          | ok i2 =>
            simp at h
            obtain ⟨hm, hr⟩ := h
            subst hm
            refine ⟨hr.symm, rfl, rfl, none, Or.inl ⟨rfl, rfl, rfl⟩, by simp [haq], ?_⟩
            refine Or.inr ⟨rfl, i2, ?_⟩
            simp only [haq]
            exact hap
          | err e => simp at h
          | panic m0 => simp at h
  | false =>
    rw [if_neg (by simp [hre])] at h
    match har : add_row module.path module.rows row_name row_fields with
    | (rows', res0) =>
      rw [har] at h
      cases res0 with
      | err e => simp at h
      | panic m0 => simp at h
      | ok p =>
        simp only at h
        match haq : add_query module.queries query_name.value params_fields (some p) sql_str with
        | (queries', query_idx) =>
          rw [haq] at h
          simp only at h
          cases hpe : params_fields.isEmpty with
          | true =>
            rw [if_pos (by simp [hpe])] at h
            simp at h
            obtain ⟨hm, hr⟩ := h
            subst hm
            refine ⟨hr.symm, rfl, rfl, some p, Or.inr ⟨rfl, p, ?_, rfl⟩, by simp [haq],
              Or.inl ⟨rfl, rfl⟩⟩
            simpa using har
          | false =>
            rw [if_neg (by simp [hpe])] at h
            match hap : add_param module.path queries' module.params params_name query_idx with
            | (params', res) =>
              rw [hap] at h
              cases res with
              | ok i2 =>
                simp at h
                obtain ⟨hm, hr⟩ := h
                subst hm
                refine ⟨hr.symm, rfl, rfl, some p, Or.inr ⟨rfl, p, by simpa using har, rfl⟩,
                  by simp [haq], ?_⟩
                refine Or.inr ⟨rfl, i2, ?_⟩
                simp only [haq]
                exact hap
              | err e => simp at h
              | panic m0 => simp at h

theorem finalize_query_no_panic {module : PreparedModule} {registrar : Registrar}
    {query_name params_name : Parsed String} {params_fields : List PreparedField}
    {row_name : Parsed String} {row_fields : List PreparedField} {sql_str : String}
    {msg : String} :
    (finalize_query module registrar query_name params_name params_fields row_name
      row_fields sql_str).2.2 ≠ RRes.panic msg := by
  simp only [finalize_query]
  split
  · simp
  · rename_i rows' m0 heq
    exfalso
    split at heq
    · simp at heq
    · rename_i hre
      split at heq
      · simp at heq
      · simp at heq
      · rename_i rows1 m1 heq2
        simp at heq
        have := @add_row_no_panic module.path module.rows row_name row_fields m1
          (by simpa using hre)
        rw [heq2] at this
        exact this rfl
  · rename_i rows' row_idx heq
    split
    · simp
    · rename_i hpe
      split
      · simp
      · simp
      · rename_i params' m0 hap
        exfalso
        have hget : (add_query module.queries query_name.value params_fields row_idx
            sql_str).1[(add_query module.queries query_name.value params_fields row_idx
              sql_str).2]? =
            some (query_name.value,
              ⟨query_name.value, params_fields, row_idx, sql_str⟩) := by
          apply insertFull_getElem (m := module.queries) (k := query_name.value)
          rfl
        have := @add_param_no_panic module.path _ module.params params_name _ _ m0
          hget (by simpa using hpe)
        rw [hap] at this
        exact this rfl

theorem finalize_query_err_variant {module : PreparedModule} {registrar : Registrar}
    {query_name params_name : Parsed String} {params_fields : List PreparedField}
    {row_name : Parsed String} {row_fields : List PreparedField} {sql_str : String}
    {m' : PreparedModule} {r' : Registrar} {e : Error}
    (h : finalize_query module registrar query_name params_name params_fields row_name
      row_fields sql_str = (m', r', .err e)) :
    e.query_name = query_name ∧ e.path = module.path ∧ ∃ v, e.err = .validation v := by
  simp only [finalize_query] at h
  split at h
  · rename_i rows' e0 heq
    simp at h
    obtain ⟨hm, hr, he⟩ := h
    split at heq
    · simp at heq
    · split at heq
      · simp at heq
      · rename_i rows1 e1 heq2
        simp at heq
        obtain ⟨v, hv⟩ := add_row_err_variant heq2
        rw [← he, ← heq.2, hv]
        exact ⟨rfl, rfl, v, rfl⟩
      · simp at heq
  · rename_i rows' m0 heq
    simp at h
  · rename_i rows' row_idx heq
    split at h
    · simp at h
    · split at h
      · simp at h
      · rename_i params' e0 hap
        simp at h
        obtain ⟨hm, hr, he⟩ := h
        obtain ⟨v, hv⟩ := add_param_err_variant hap
        rw [← he, hv]
        exact ⟨rfl, rfl, v, rfl⟩
      · simp at h

/-- The length of the query's declared parameter list (the PgCompatible
name list, or the Extended bind-parameter list). -/
def declared_params_count : ValidatedQuery → Nat
  | .pgCompatible _ ps _ _ => ps.length
  | .extended _ _ bps _ _ => bps.length

theorem prepare_query_ok_spec {client : Client} {module : PreparedModule}
    {registrar : Registrar} {param_types row_types : List TypeAnnotationListItem}
    {query : ValidatedQuery} {m' : PreparedModule} {r' : Registrar} {u : Unit}
    (h : prepare_query client module registrar param_types row_types query
      = (m', r', .ok u)) :
    ∃ stmt rmid r₂ params_name row_name params_fields row_fields nullable_row,
      client query.sql_str = .ok stmt ∧
      build_row_fields rmid stmt.columns nullable_row query.name module.path
        = (r₂, .ok row_fields) ∧
      params_fields.length = min (declared_params_count query) stmt.params.length ∧
      row_fields.length = stmt.columns.length ∧
      (∀ f ∈ params_fields, f.is_inner_nullable = false) ∧
      finalize_query module r₂ query.name params_name params_fields row_name row_fields
        query.sql_str = (m', r', .ok u) := by
  simp only [prepare_query] at h
  split at h
  · simp at h
  · rename_i stmt hclient
    split at h
    · rename_i name ps row sql
      match h1 : register_param_fields_pg registrar (ps.zip stmt.params) name module.path with
      | (r₁, .error e) => rw [h1] at h; simp at h
      | (r₁, .ok pf) =>
        rw [h1] at h
        simp only at h
        match h2 : build_row_fields r₁ stmt.columns row name module.path with
        | (r₂, .error e) => rw [h2] at h; simp at h
        | (r₂, .ok rf) =>
          rw [h2] at h
          simp only at h
          obtain ⟨hlen, hinner⟩ := register_param_fields_pg_spec h1
          obtain ⟨hrlen, _⟩ := register_row_fields_spec (build_row_fields_ok h2)
          exact ⟨stmt, r₁, r₂, _, _, pf, rf, row, hclient, h2,
            by simpa [declared_params_count] using hlen, hrlen, hinner, h⟩
    · rename_i name params bind_params row sql
      split at h
      · simp at h
      · rename_i pres params_name nullable_params hpres
        split at h
        · simp at h
        · rename_i rres row_name nullable_row hrres
          match h1 : build_param_fields_ext registrar bind_params stmt.params
              nullable_params name module.path with
          | (r₁, .error e) => rw [h1] at h; simp at h
          | (r₁, .ok pf) =>
            rw [h1] at h
            simp only at h
            match h2 : build_row_fields r₁ stmt.columns nullable_row name module.path with
            | (r₂, .error e) => rw [h2] at h; simp at h
            | (r₂, .ok rf) =>
              rw [h2] at h
              simp only at h
              obtain ⟨hlen, hinner⟩ := register_param_fields_ext_spec
                (build_param_fields_ext_ok h1)
              obtain ⟨hrlen, _⟩ := register_row_fields_spec (build_row_fields_ok h2)
              exact ⟨stmt, r₁, r₂, params_name, row_name, pf, rf, nullable_row, hclient, h2,
                by simpa [declared_params_count] using hlen, hrlen, hinner, h⟩

theorem prepare_query_no_panic {client : Client} {module : PreparedModule}
    {registrar : Registrar} {param_types row_types : List TypeAnnotationListItem}
    {query : ValidatedQuery} {msg : String} :
    (prepare_query client module registrar param_types row_types query).2.2
      ≠ RRes.panic msg := by
  simp only [prepare_query]
  split
  · simp
  · rename_i stmt hclient
    split
    · rename_i name ps row sql
      split
      · simp
      · split
        · simp
        · exact finalize_query_no_panic
    · rename_i name params bind_params row sql
      split
      · simp
      · split
        · simp
        · split
          · simp
          · split
            · simp
            · exact finalize_query_no_panic

theorem prepare_query_err_dup {client : Client} {module : PreparedModule}
    {registrar : Registrar} {param_types row_types : List TypeAnnotationListItem}
    {query : ValidatedQuery} {m' : PreparedModule} {r' : Registrar} {e : Error} {d : String}
    (h : prepare_query client module registrar param_types row_types query
      = (m', r', .err e)) (hd : e.err = .duplicateSqlColName d) : m' = module := by
  simp only [prepare_query] at h
  split at h
  · simp at h
    exact h.1.symm
  · rename_i stmt hclient
    split at h
    · rename_i name ps row sql
      split at h
      · simp at h
        exact h.1.symm
      · split at h
        · simp at h
          exact h.1.symm
        · obtain ⟨_, _, v, hv⟩ := finalize_query_err_variant h
          rw [hv] at hd
          simp at hd
    · rename_i name params bind_params row sql
      split at h
      · simp at h
        exact h.1.symm
      · split at h
        · simp at h
          exact h.1.symm
        · split at h
          · simp at h
            exact h.1.symm
          · split at h
            · simp at h
              exact h.1.symm
            · obtain ⟨_, _, v, hv⟩ := finalize_query_err_variant h
              rw [hv] at hd
              simp at hd

theorem indexMapModify_getElem {α : Type} (l : List (String × α)) (i : Nat) (f : α → α)
    (j : Nat) :
    (indexMapModify l i f)[j]? =
      if j = i then (l[j]?).map (fun e => (e.1, f e.2)) else l[j]? := by
  induction l generalizing i j with
  | nil => simp [indexMapModify]
  | cons e rest ih =>
    cases i with
    | zero =>
      cases j with
      | zero => simp [indexMapModify]
      | succ j0 => simp [indexMapModify]
    | succ n =>
      cases j with
      | zero => simp [indexMapModify]
      | succ j0 =>
        simp only [indexMapModify, List.getElem?_cons_succ]
        rw [ih n j0]
        by_cases hji : j0 = n
        · simp [hji]
        · simp [hji, fun h => hji (Nat.succ_injective h)]

/-- The params back-edge invariant: every query index recorded in a
params struct points at a query whose parameter fields, sorted by name,
equal the struct's stored fields. -/
def params_inv (m : PreparedModule) : Prop :=
  ∀ e ∈ m.params, ∀ q ∈ e.2.queries,
    ∃ qe, m.queries[q]? = some qe ∧ sort_by_name qe.2.params = e.2.fields

theorem prepare_query_params_inv {client : Client} {module : PreparedModule}
    {registrar : Registrar} {param_types row_types : List TypeAnnotationListItem}
    {query : ValidatedQuery} {m' : PreparedModule} {r' : Registrar} {u : Unit}
    (h : prepare_query client module registrar param_types row_types query
      = (m', r', .ok u))
    (hfresh : lookupIdx module.queries query.name.value = none)
    (hinv : params_inv module) : params_inv m' := by
  obtain ⟨stmt, rmid, r₂, pn, rn, pf, rf, nr, hclient, hbuild, hplen, hrlen, hpinner, hfin⟩ :=
    prepare_query_ok_spec h
  obtain ⟨hr', hpath, hname, row_idx, hrow, hqueries, hparams⟩ := finalize_query_ok_spec hfin
  have hins := insertFull_fresh
    (⟨query.name.value, pf, row_idx, query.sql_str⟩ : PreparedQuery) hfresh
  have hq1 : m'.queries = module.queries ++
      [(query.name.value, ⟨query.name.value, pf, row_idx, query.sql_str⟩)] := by
    rw [hqueries, add_query, hins]
  have hq2 : (add_query module.queries query.name.value pf row_idx query.sql_str).2
      = module.queries.length := by
    rw [add_query, hins]
  have hpreserve : ∀ (q : Nat) (qe : String × PreparedQuery),
      module.queries[q]? = some qe → m'.queries[q]? = some qe := by
    intro q qe hqe
    rw [hq1]
    have hlt : q < module.queries.length := (List.getElem?_eq_some.mp hqe).1
    rw [List.getElem?_append, if_pos hlt]
    exact hqe
  have hnew : m'.queries[module.queries.length]? =
      some (query.name.value, ⟨query.name.value, pf, row_idx, query.sql_str⟩) := by
    rw [hq1]
    simp
  rcases hparams with ⟨hpe, hpm⟩ | ⟨hpe, i2, hap⟩
  · intro e he q hq
    rw [hpm] at he
    obtain ⟨qe, hqe, hsort⟩ := hinv e he q hq
    exact ⟨qe, hpreserve q qe hqe, hsort⟩
  · obtain ⟨qe0, hq0, hqne, hcases⟩ := add_param_ok_spec hap
    rw [hq2] at hq0
    have hqe0 : qe0 = (query.name.value, ⟨query.name.value, pf, row_idx, query.sql_str⟩) := by
      rw [hq0] at hnew
      exact Option.some.inj hnew
    rcases hcases with ⟨prev, hLp, hsortp, hpm⟩ | ⟨hLp, hi2, hpm⟩
    · -- occupied: the entry at index i2 gains the new back-edge
      have hprev_at : module.params[i2]? = some (pn.value, prev) := by
        have := lookupIdx_get hLp
        rwa [List.get?_eq_getElem?] at this
      have hprev_mem : (pn.value, prev) ∈ module.params := List.getElem?_mem hprev_at
      intro e he q hq
      rw [hpm] at he
      obtain ⟨j, hj⟩ := List.mem_iff_getElem?.mp he
      rw [indexMapModify_getElem] at hj
      by_cases hji : j = i2
      · rw [if_pos hji, hji, hprev_at] at hj
        simp at hj
        subst hj
        simp only at hq
        rcases List.mem_append.mp hq with hqold | hqnew
        · obtain ⟨qe, hqe, hsort⟩ := hinv (pn.value, prev) hprev_mem q hqold
          exact ⟨qe, hpreserve q qe hqe, hsort⟩
        · simp at hqnew
          subst hqnew
          rw [hq2]
          refine ⟨(query.name.value, ⟨query.name.value, pf, row_idx, query.sql_str⟩),
            hnew, ?_⟩
          rw [hqe0] at hsortp
          exact hsortp
      · rw [if_neg hji] at hj
        have he' : e ∈ module.params := List.getElem?_mem hj
        obtain ⟨qe, hqe, hsort⟩ := hinv e he' q hq
        exact ⟨qe, hpreserve q qe hqe, hsort⟩
    · -- vacant: a fresh params struct with the single new back-edge
      intro e he q hq
      rw [hpm] at he
      rcases List.mem_append.mp he with he' | he'
      · obtain ⟨qe, hqe, hsort⟩ := hinv e he' q hq
        exact ⟨qe, hpreserve q qe hqe, hsort⟩
      · simp at he'
        subst he'
        simp only at hq
        simp at hq
        subst hq
        rw [hq2]
        refine ⟨(query.name.value, ⟨query.name.value, pf, row_idx, query.sql_str⟩), hnew, ?_⟩
        rw [hqe0]

theorem prepare_query_keys {client : Client} {module : PreparedModule}
    {registrar : Registrar} {param_types row_types : List TypeAnnotationListItem}
    {query : ValidatedQuery} {m' : PreparedModule} {r' : Registrar} {u : Unit}
    (h : prepare_query client module registrar param_types row_types query
      = (m', r', .ok u))
    (hfresh : lookupIdx module.queries query.name.value = none) :
    m'.queries.map Prod.fst = module.queries.map Prod.fst ++ [query.name.value] := by
  obtain ⟨stmt, rmid, r₂, pn, rn, pf, rf, nr, hclient, hbuild, hplen, hrlen, hpinner, hfin⟩ :=
    prepare_query_ok_spec h
  obtain ⟨hr', hpath, hname, row_idx, hrow, hqueries, hparams⟩ := finalize_query_ok_spec hfin
  have hins := insertFull_fresh
    (⟨query.name.value, pf, row_idx, query.sql_str⟩ : PreparedQuery) hfresh
  rw [hqueries, add_query, hins]
  simp

theorem prepare_queries_loop_params_inv {client : Client}
    {param_types row_types : List TypeAnnotationListItem} :
    ∀ (qs : List ValidatedQuery) (module : PreparedModule) (registrar : Registrar)
      (m' : PreparedModule) (r' : Registrar) (u : Unit),
      prepare_queries_loop client module registrar param_types row_types qs
        = (m', r', .ok u) →
      (∀ q ∈ qs, q.name.value ∉ module.queries.map Prod.fst) →
      (qs.map (fun q => q.name.value)).Nodup →
      params_inv module → params_inv m' := by
  intro qs
  induction qs with
  | nil =>
    intro module registrar m' r' u h _ _ hinv
    simp only [prepare_queries_loop] at h
    simp at h
    rw [← h.1]
    exact hinv
  | cons q rest ih =>
    intro module registrar m' r' u h hnotin hnd hinv
    simp only [prepare_queries_loop] at h
    match hpq : prepare_query client module registrar param_types row_types q with
    | (m₁, r₁, res) =>
      rw [hpq] at h
      cases res with
      | err e => simp at h
      | panic m0 => simp at h
      | ok u0 =>
        have hfresh : lookupIdx module.queries q.name.value = none := by
          rw [lookupIdx_none_iff]
          intro e he hek
          exact hnotin q (by simp) (by
            rw [← hek]
            exact List.mem_map_of_mem Prod.fst he)
        have hinv₁ := prepare_query_params_inv hpq hfresh hinv
        have hkeys := prepare_query_keys hpq hfresh
        have hnd2 : (q.name.value :: rest.map (fun q => q.name.value)).Nodup := by
          simpa using hnd
        obtain ⟨hhead, htail⟩ := List.nodup_cons.mp hnd2
        refine ih m₁ r₁ m' r' u h ?_ htail hinv₁
        intro q' hq' hmem
        rw [hkeys] at hmem
        rcases List.mem_append.mp hmem with hmem | hmem
        · exact hnotin q' (by simp [hq']) hmem
        · simp at hmem
          exact hhead (hmem ▸ List.mem_map_of_mem _ hq')

theorem prepare_module_params_inv {client : Client} {registrar r' : Registrar}
    {vm : ValidatedModule} {pm : PreparedModule}
    (h : prepare_module client registrar vm = (r', .ok pm))
    (hnd : (vm.queries.map (fun q => q.name.value)).Nodup) : params_inv pm := by
  simp only [prepare_module] at h
  match hloop : prepare_queries_loop client ⟨vm.path, vm.name, [], [], []⟩ registrar
      vm.param_types vm.row_types vm.queries with
  | (m, r, res) =>
    rw [hloop] at h
    cases res with
    | err e => simp at h
    | panic m0 => simp at h
    | ok u =>
      simp at h
      rw [← h.2]
      exact prepare_queries_loop_params_inv vm.queries _ registrar m r u hloop
        (by intro q hq hmem; simp at hmem) hnd
        (by intro e he q hq; simp at he)

/-! The no-panic chain through the module loop. -/

theorem prepare_queries_loop_no_panic {client : Client}
    {param_types row_types : List TypeAnnotationListItem} {msg : String} :
    ∀ (qs : List ValidatedQuery) (module : PreparedModule) (registrar : Registrar),
      (prepare_queries_loop client module registrar param_types row_types qs).2.2
        ≠ RRes.panic msg := by
  intro qs
  induction qs with
  | nil =>
    intro module registrar
    simp [prepare_queries_loop]
  | cons q rest ih =>
    intro module registrar
    simp only [prepare_queries_loop]
    match hpq : prepare_query client module registrar param_types row_types q with
    | (m₁, r₁, res) =>
      cases res with
      | ok u0 => exact ih m₁ r₁
      | err e => simp
      | panic m0 =>
        exfalso
        have := @prepare_query_no_panic client module registrar param_types row_types
          q m0
        rw [hpq] at this
        exact this rfl

theorem prepare_module_no_panic {client : Client} {registrar : Registrar}
    {vm : ValidatedModule} {msg : String} :
    (prepare_module client registrar vm).2 ≠ RRes.panic msg := by
  simp only [prepare_module]
  match hloop : prepare_queries_loop client ⟨vm.path, vm.name, [], [], []⟩ registrar
      vm.param_types vm.row_types vm.queries with
  | (m, r, res) =>
    cases res with
    | ok u => simp
    | err e => simp
    | panic m0 =>
      exfalso
      have := @prepare_queries_loop_no_panic client vm.param_types vm.row_types m0
        vm.queries ⟨vm.path, vm.name, [], [], []⟩ registrar
      rw [hloop] at this
      exact this rfl

theorem insertFull_mem {α : Type} {m : List (String × α)} {k : String} {v : α}
    {e : String × α} (h : e ∈ (insertFull m k v).1) : e ∈ m ∨ e.2 = v := by
  unfold insertFull at h
  match hl : lookupIdx m k with
  | some (j, w) =>
    rw [hl] at h
    simp only at h
    rcases indexMapModify_mem h with h1 | ⟨e₀, he₀, hval⟩
    · exact Or.inl h1
    · exact Or.inr (by rw [hval])
  | none =>
    rw [hl] at h
    simp only at h
    rcases List.mem_append.mp h with h1 | h1
    · exact Or.inl h1
    · simp at h1
      exact Or.inr (by rw [h1])

/-- The nullability invariant of a prepared module: every stored field
has `is_inner_nullable = false`. -/
def no_inner (m : PreparedModule) : Prop :=
  (∀ e ∈ m.queries, ∀ f ∈ e.2.params, f.is_inner_nullable = false) ∧
  (∀ e ∈ m.rows, ∀ f ∈ e.2.fields, f.is_inner_nullable = false) ∧
  (∀ e ∈ m.params, ∀ f ∈ e.2.fields, f.is_inner_nullable = false)

theorem prepare_query_no_inner {client : Client} {module : PreparedModule}
    {registrar : Registrar} {param_types row_types : List TypeAnnotationListItem}
    {query : ValidatedQuery} {m' : PreparedModule} {r' : Registrar} {u : Unit}
    (h : prepare_query client module registrar param_types row_types query
      = (m', r', .ok u))
    (hinv : no_inner module) : no_inner m' := by
  obtain ⟨stmt, rmid, r₂, pn, rn, pf, rf, nr, hclient, hbuild, hplen, hrlen, hpinner, hfin⟩ :=
    prepare_query_ok_spec h
  obtain ⟨hr', hpath, hname, row_idx, hrow, hqueries, hparams⟩ := finalize_query_ok_spec hfin
  have hrinner := register_row_fields_inner_false (build_row_fields_ok hbuild)
  obtain ⟨hqinv, hrowinv, hpinv⟩ := hinv
  have hqueries' : ∀ e ∈ m'.queries, ∀ f ∈ e.2.params, f.is_inner_nullable = false := by
    intro e he f hf
    rw [hqueries] at he
    rcases insertFull_mem he with he1 | he1
    · exact hqinv e he1 f hf
    · rw [he1] at hf
      exact hpinner f hf
  have hrows' : ∀ e ∈ m'.rows, ∀ f ∈ e.2.fields, f.is_inner_nullable = false := by
    intro e he f hf
    rcases hrow with ⟨_, hrm, _⟩ | ⟨_, p, har, _⟩
    · rw [hrm] at he
      exact hrowinv e he f hf
    · obtain ⟨row, hshape, _, hsort, _, _⟩ := add_row_ok_spec har
      rcases hshape with hshape | ⟨hshape, _, hrowval⟩
      · rw [hshape] at he
        exact hrowinv e he f hf
      · rw [hshape] at he
        rcases List.mem_append.mp he with he1 | he1
        · exact hrowinv e he1 f hf
        · simp at he1
          rw [he1] at hf
          simp only [hrowval] at hf
          exact hrinner f (mem_sort_by_name.mp hf)
  refine ⟨hqueries', hrows', ?_⟩
  rcases hparams with ⟨_, hpm⟩ | ⟨_, i2, hap⟩
  · intro e he f hf
    rw [hpm] at he
    exact hpinv e he f hf
  · obtain ⟨qe0, hq0, hqne, hcases⟩ := add_param_ok_spec hap
    have hq0inner : ∀ f ∈ qe0.2.params, f.is_inner_nullable = false :=
      hqueries' qe0 (List.getElem?_mem hq0)
    rcases hcases with ⟨prev, hLp, hsortp, hpm⟩ | ⟨hLp, hi2, hpm⟩
    · intro e he f hf
      rw [hpm] at he
      rcases indexMapModify_mem he with he1 | ⟨e₀, he₀, hval⟩
      · exact hpinv e he1 f hf
      · rw [hval] at hf
        exact hpinv e₀ he₀ f hf
    · intro e he f hf
      rw [hpm] at he
      rcases List.mem_append.mp he with he1 | he1
      · exact hpinv e he1 f hf
      · simp at he1
        rw [he1] at hf
        simp only at hf
        exact hq0inner f (mem_sort_by_name.mp hf)

theorem prepare_queries_loop_no_inner {client : Client}
    {param_types row_types : List TypeAnnotationListItem} :
    ∀ (qs : List ValidatedQuery) (module : PreparedModule) (registrar : Registrar)
      (m' : PreparedModule) (r' : Registrar) (u : Unit),
      prepare_queries_loop client module registrar param_types row_types qs
        = (m', r', .ok u) →
      no_inner module → no_inner m' := by
  intro qs
  induction qs with
  | nil =>
    intro module registrar m' r' u h hinv
    simp only [prepare_queries_loop] at h
    simp at h
    rw [← h.1]
    exact hinv
  | cons q rest ih =>
    intro module registrar m' r' u h hinv
    simp only [prepare_queries_loop] at h
    match hpq : prepare_query client module registrar param_types row_types q with
    | (m₁, r₁, res) =>
      rw [hpq] at h
      cases res with
      | err e => simp at h
      | panic m0 => simp at h
      | ok u0 => exact ih m₁ r₁ m' r' u h (prepare_query_no_inner hpq hinv)

theorem prepare_module_no_inner {client : Client} {registrar r' : Registrar}
    {vm : ValidatedModule} {pm : PreparedModule}
    (h : prepare_module client registrar vm = (r', .ok pm)) : no_inner pm := by
  simp only [prepare_module] at h
  match hloop : prepare_queries_loop client ⟨vm.path, vm.name, [], [], []⟩ registrar
      vm.param_types vm.row_types vm.queries with
  | (m, r, res) =>
    rw [hloop] at h
    cases res with
    | err e => simp at h
    | panic m0 => simp at h
    | ok u =>
      simp at h
      rw [← h.2]
      refine prepare_queries_loop_no_inner vm.queries _ registrar m r u hloop ?_
      refine ⟨?_, ?_, ?_⟩ <;> intro e he <;> simp at he

/-! Lemmas for the type-scan loop. -/

/-- The bucket stored for a schema (empty when the schema has no
bucket). -/
def bucketGet (types : List (String × List PreparedType)) (s : String) :
    List PreparedType :=
  ((lookupIdx types s).map (fun p => p.2)).getD []

theorem lookupIdx_append_none {α : Type} {l : List (String × α)} {k k' : String} (v : α)
    (h : lookupIdx l k = none) (hkk : k' ≠ k) :
    lookupIdx (l ++ [(k', v)]) k = none := by
  rw [lookupIdx_none_iff]
  intro e he
  rcases List.mem_append.mp he with he1 | he1
  · exact (lookupIdx_none_iff l k).mp h e he1
  · simp at he1
    rw [he1]
    exact hkk

theorem bucket_types_get (acc : List (String × List PreparedType)) (sch : String)
    (ty : PreparedType) (s : String) :
    bucketGet (bucket_types acc sch ty) s =
      if sch = s then bucketGet acc s ++ [ty] else bucketGet acc s := by
  unfold bucket_types
  match hl : lookupIdx acc sch with
  | some (i, v) =>
    simp only
    by_cases hs : sch = s
    · subst hs
      unfold bucketGet
      rw [indexMapModify_lookup, hl]
      simp
    · unfold bucketGet
      rw [indexMapModify_lookup]
      rw [if_neg hs]
      match hls : lookupIdx acc s with
      | none => simp
      | some (j, w) =>
        have hji : j ≠ i := by
          intro hji
          subst hji
          have h1 := lookupIdx_get hl
          have h2 := lookupIdx_get hls
          rw [h1] at h2
          have := congrArg Prod.fst (Option.some.inj h2)
          simp at this
          exact hs this
        simp [hji]
  | none =>
    simp only
    by_cases hs : sch = s
    · subst hs
      unfold bucketGet
      rw [lookupIdx_append_right _ hl, hl]
      simp
    · unfold bucketGet
      rw [if_neg hs]
      match hls : lookupIdx acc s with
      | none =>
        rw [lookupIdx_append_none _ hls (fun h => hs h)]
      | some (j, w) =>
        rw [lookupIdx_append_left _ hls]

theorem scan_types_go_get (reg : Registrar) :
    ∀ (entries : List ((String × String) × CornucopiaType))
      (acc : List (String × List PreparedType)) (s : String),
      bucketGet (scan_types_go reg acc entries) s =
        bucketGet acc s ++ entries.filterMap
          (fun e => if e.1.1 = s then prepare_type reg e.1.2 e.2 else none) := by
  intro entries
  induction entries with
  | nil => intro acc s; simp [scan_types_go]
  | cons e rest ih =>
    intro acc s
    simp only [scan_types_go]
    match hpt : prepare_type reg e.1.2 e.2 with
    | some ty =>
      rw [ih (bucket_types acc e.1.1 ty) s, bucket_types_get]
      by_cases hs : e.1.1 = s
      · rw [if_pos hs]
        simp only [List.filterMap_cons, if_pos hs, hpt]
        simp
      · rw [if_neg hs]
        simp only [List.filterMap_cons, if_neg hs]
    | none =>
      rw [ih acc s]
      by_cases hs : e.1.1 = s
      · simp only [List.filterMap_cons, if_pos hs, hpt]
      · simp only [List.filterMap_cons, if_neg hs]

/-! Concrete fixtures used by the witnesses and counterexamples. -/

def pgInt4 : PgType := .base "pg_catalog" "int4"
def pgText : PgType := .base "pg_catalog" "text"
def posd : Pos := ⟨3, 0⟩
def tyInt4 : CornucopiaType := .simple "int4" true
def tyText : CornucopiaType := .simple "text" false
def emptyModule : PreparedModule := ⟨"queries/m.sql", "m", [], [], []⟩

def fieldA : PreparedField := ⟨"a", tyText, false, false⟩
def fieldB : PreparedField := ⟨"b", tyText, false, false⟩

def clientBook : Client := fun _ => .ok ⟨[pgText], []⟩
def qBook : ValidatedQuery :=
  .extended ⟨"insert_book", posd⟩ (.implicit []) [⟨"title", posd⟩] (.implicit [])
    "INSERT INTO Book(title) VALUES ($1)"
def vmBook : ValidatedModule := ⟨"queries/books.sql", "books", [qBook], [], []⟩
def titleField : PreparedField := ⟨"title", tyText, false, false⟩
def regBook : Registrar := [(("pg_catalog", "text"), tyText)]
def pmBook : PreparedModule := ⟨"queries/books.sql", "books",
  [("insert_book", ⟨"insert_book", [titleField], none, "INSERT INTO Book(title) VALUES ($1)"⟩)],
  [("InsertBookParams", ⟨"InsertBookParams", [titleField], false, [0]⟩)], []⟩

def clientAuthors : Client := fun _ => .ok ⟨[], [⟨"name", pgText⟩, ⟨"id", pgInt4⟩]⟩

def clientTwo : Client := fun s =>
  if s == "SELECT 1" then .ok ⟨[], [⟨"c", pgInt4⟩]⟩
  else .error ⟨some "relation does not exist"⟩
def qBad : ValidatedQuery := .pgCompatible ⟨"q1", posd⟩ [] [] "bad sql"
def qGood : ValidatedQuery := .pgCompatible ⟨"q2", posd⟩ [] [] "SELECT 1"
def vmTwo : ValidatedModule := ⟨"queries/m.sql", "m", [qBad, qGood], [], []⟩
def vmGoodOnly : ValidatedModule := ⟨"queries/m.sql", "m", [qGood], [], []⟩

def clientOneParam : Client := fun _ => .ok ⟨[pgInt4], []⟩
def qPgNoParams : ValidatedQuery := .pgCompatible ⟨"q3", posd⟩ [] [] "INSERT"

def clientDup : Client := fun _ => .ok ⟨[], [⟨"id", pgInt4⟩, ⟨"id", pgInt4⟩]⟩
def qDup : ValidatedQuery :=
  .extended ⟨"dup", posd⟩ (.implicit []) [] (.implicit []) "SELECT"

def rowQ2 : PreparedRow := ⟨"Q2", [⟨"c", tyInt4, false, false⟩], true⟩
def pmGood : PreparedModule :=
  ⟨"queries/m.sql", "m", [("q2", ⟨"q2", [], some (0, [0]), "SELECT 1"⟩)], [], [("Q2", rowQ2)]⟩
def regInt4 : Registrar := [(("pg_catalog", "int4"), tyInt4)]

/-- Concrete evaluation: the single-good-query module run. -/
theorem prepare_module_good_eval :
    prepare_module clientTwo [] vmGoodOnly = (regInt4, .ok pmGood) := by
  simp [prepare_module, prepare_queries_loop, prepare_query, clientTwo, vmGoodOnly, qGood,
    ValidatedQuery.sql_str, ValidatedQuery.name, register_param_fields_pg, build_row_fields,
    has_duplicate, has_duplicate_go, check_nullable_cols, nullable_column_name,
    register_row_fields, register, lookupReg, builtinCopy, PgType.schema, PgType.name,
    pgInt4, finalize_query, add_row, add_param, add_query, insertFull, lookupIdx,
    named_struct_field, sort_by_name, List.insertionSort, List.orderedInsert,
    sequenceOption, position, Parsed.map, Error.new, tyInt4, posd, regInt4, pmGood, rowQ2]
  decide

/-- Concrete evaluation: the one-query book module run. -/
theorem prepare_module_book_eval :
    prepare_module clientBook [] vmBook = (regBook, .ok pmBook) := by
  simp [prepare_module, prepare_queries_loop, prepare_query, clientBook, vmBook, qBook,
    ValidatedQuery.sql_str, ValidatedQuery.name, build_param_fields_ext,
    check_nullable_params, register_param_fields_ext, register, lookupReg, builtinCopy,
    PgType.schema, PgType.name, pgText, build_row_fields, has_duplicate, has_duplicate_go,
    check_nullable_cols, register_row_fields, finalize_query, add_row, add_param, add_query,
    insertFull, lookupIdx, indexMapModify, named_struct_field, sort_by_name,
    List.insertionSort, List.orderedInsert, sequenceOption, position, Parsed.map,
    toUpperCamelCase, splitUnderscore, capitalizeSegment, Error.new, tyText, titleField,
    posd, regBook, pmBook]
  decide

/-- The ok-index returned by `add_param` names an entry whose back-edge
list ends with the interned query's index. -/
theorem add_param_back_edge {path : String} {queries : List (String × PreparedQuery)}
    {params params' : List (String × PreparedParams)} {name : Parsed String}
    {query_idx i : Nat}
    (h : add_param path queries params name query_idx = (params', RRes.ok i)) :
    ∃ p old, params'[i]? = some (name.value, p) ∧ p.queries = old ++ [query_idx] := by
  obtain ⟨qe, hq, hne, hcases⟩ := add_param_ok_spec h
  rcases hcases with ⟨prev, hL, hsort, hps⟩ | ⟨hL, hi, hps⟩
  · have hat : params[i]? = some (name.value, prev) := by
      have hg := lookupIdx_get hL
      rwa [List.get?_eq_getElem?] at hg
    refine ⟨{ prev with queries := prev.queries ++ [query_idx] }, prev.queries, ?_, rfl⟩
    rw [hps, indexMapModify_getElem]
    simp [hat]
  · refine ⟨⟨name.value, sort_by_name qe.2.params,
      qe.2.params.all (fun f => f.ty.is_copy), [query_idx]⟩, [], ?_, rfl⟩
    rw [hps, hi]
    simp

/-- Lookup success names an entry of the table. -/

theorem lookupReg_mem {r : Registrar} {k : String × String} {c : CornucopiaType}
    (h : lookupReg r k = some c) : (k, c) ∈ r := by
  unfold lookupReg at h
  match hf : r.find? (fun e => e.1 == k) with
  | none => rw [hf] at h; simp at h
  | some e =>
    rw [hf] at h
    simp at h
    have hp := List.find?_some hf
    have hm := List.mem_of_find?_eq_some hf
    simp at hp
    rw [← h, ← hp]
    exact hm

theorem register_mem {r rt : Registrar} {t : PgType} {ty : CornucopiaType}
    (h : register r t = .ok (ty, rt)) : ((t.schema, t.name), ty) ∈ rt := by
  cases t with
  | base s n =>
    unfold register at h
    simp only [PgType.schema, PgType.name] at h
    match hL : lookupReg r (s, n) with
    | some c =>
      rw [hL] at h
      simp at h
      rw [← h.1, ← h.2]
      exact lookupReg_mem hL
    | none =>
      rw [hL] at h
      simp only at h
      match hb : builtinCopy n with
      | some c =>
        rw [hb] at h
        simp at h
        rw [← h.1, ← h.2]
        simp [PgType.schema, PgType.name]
      | none => rw [hb] at h; simp at h
  | arrayT s n e =>
    unfold register at h
    simp only [PgType.schema, PgType.name] at h
    match hL : lookupReg r (s, n) with
    | some c =>
      rw [hL] at h
      simp at h
      rw [← h.1, ← h.2]
      exact lookupReg_mem hL
    | none =>
      rw [hL] at h
      simp only at h
      match hrec : register r e with
      | .error e0 => rw [hrec] at h; simp [bind, Except.bind] at h
      | .ok p =>
        obtain ⟨ei, r₁⟩ := p
        rw [hrec] at h
        simp [bind, Except.bind] at h
        rw [← h.1, ← h.2]
        simp [PgType.schema, PgType.name]
  | domainT s n i =>
    unfold register at h
    simp only [PgType.schema, PgType.name] at h
    match hL : lookupReg r (s, n) with
    | some c =>
      rw [hL] at h
      simp at h
      rw [← h.1, ← h.2]
      exact lookupReg_mem hL
    | none =>
      rw [hL] at h
      simp only at h
      match hrec : register r i with
      | .error e0 => rw [hrec] at h; simp [bind, Except.bind] at h
      | .ok p =>
        obtain ⟨ii, r₁⟩ := p
        rw [hrec] at h
        simp [bind, Except.bind] at h
        rw [← h.1, ← h.2]
        simp [PgType.schema, PgType.name]
  | enumT s n vs =>
    unfold register at h
    simp only [PgType.schema, PgType.name] at h
    match hL : lookupReg r (s, n) with
    | some c =>
      rw [hL] at h
      simp at h
      rw [← h.1, ← h.2]
      exact lookupReg_mem hL
    | none =>
      rw [hL] at h
      simp at h
      rw [← h.1, ← h.2]
      simp [PgType.schema, PgType.name]
  | compositeT s n fs =>
    unfold register at h
    simp only [PgType.schema, PgType.name] at h
    match hL : lookupReg r (s, n) with
    | some c =>
      rw [hL] at h
      simp at h
      rw [← h.1, ← h.2]
      exact lookupReg_mem hL
    | none =>
      rw [hL] at h
      simp only at h
      match hrec : registerFields r fs with
      | .error e0 => rw [hrec] at h; simp [bind, Except.bind] at h
      | .ok p =>
        obtain ⟨ftys, r₁⟩ := p
        rw [hrec] at h
        simp [bind, Except.bind] at h
        rw [← h.1, ← h.2]
        simp [PgType.schema, PgType.name]

theorem register_extends_all : ∀ (n : Nat),
    (∀ (r : Registrar) (t : PgType) (ty : CornucopiaType) (rt : Registrar),
      sizeOf t < n → register r t = .ok (ty, rt) → ∃ ext, rt = r ++ ext) ∧
    (∀ (r : Registrar) (fs : List (String × PgType)) (tys : List CornucopiaType)
      (rt : Registrar),
      sizeOf fs < n → registerFields r fs = .ok (tys, rt) → ∃ ext, rt = r ++ ext) := by
  intro n
  induction n with
  | zero =>
    exact ⟨fun r t ty rt hsz => absurd hsz (Nat.not_lt_zero _),
      fun r fs tys rt hsz => absurd hsz (Nat.not_lt_zero _)⟩
  | succ n ih =>
    obtain ⟨ihr, ihf⟩ := ih
    constructor
    · intro r t ty rt hsz h
      cases t with
      | base s n2 =>
        unfold register at h
        simp only [PgType.schema, PgType.name] at h
        match hL : lookupReg r (s, n2) with
        | some c =>
          rw [hL] at h
          simp at h
          exact ⟨[], by simp [← h.2]⟩
        | none =>
          rw [hL] at h
          simp only at h
          match hb : builtinCopy n2 with
          | some c =>
            rw [hb] at h
            simp at h
            exact ⟨[((s, n2), .simple n2 c)], h.2.symm⟩
          | none => rw [hb] at h; simp at h
      | arrayT s n2 e =>
        unfold register at h
        simp only [PgType.schema, PgType.name] at h
        match hL : lookupReg r (s, n2) with
        | some c =>
          rw [hL] at h
          simp at h
          exact ⟨[], by simp [← h.2]⟩
        | none =>
          rw [hL] at h
          simp only at h
          match hrec : register r e with
          | .error e0 => rw [hrec] at h; simp [bind, Except.bind] at h
          | .ok p =>
            obtain ⟨ei, r₁⟩ := p
            rw [hrec] at h
            simp [bind, Except.bind] at h
            have hse : sizeOf e < n := by
              simp at hsz
              omega
            obtain ⟨ext₁, hext₁⟩ := ihr r e ei r₁ hse hrec
            exact ⟨ext₁ ++ [((s, n2), .array ei)], by rw [← h.2, hext₁, List.append_assoc]⟩
      | domainT s n2 i =>
        unfold register at h
        simp only [PgType.schema, PgType.name] at h
        match hL : lookupReg r (s, n2) with
        | some c =>
          rw [hL] at h
          simp at h
          exact ⟨[], by simp [← h.2]⟩
        | none =>
          rw [hL] at h
          simp only at h
          match hrec : register r i with
          | .error e0 => rw [hrec] at h; simp [bind, Except.bind] at h
          | .ok p =>
            obtain ⟨ii, r₁⟩ := p
            rw [hrec] at h
            simp [bind, Except.bind] at h
            have hse : sizeOf i < n := by
              simp at hsz
              omega
            obtain ⟨ext₁, hext₁⟩ := ihr r i ii r₁ hse hrec
            exact ⟨ext₁ ++ [((s, n2), .domain ii)], by rw [← h.2, hext₁, List.append_assoc]⟩
      | enumT s n2 vs =>
        unfold register at h
        simp only [PgType.schema, PgType.name] at h
        match hL : lookupReg r (s, n2) with
        | some c =>
          rw [hL] at h
          simp at h
          exact ⟨[], by simp [← h.2]⟩
        | none =>
          rw [hL] at h
          simp at h
          exact ⟨[((s, n2), .custom (.enumData vs) (toUpperCamelCase n2) true true s n2)],
            h.2.symm⟩
      | compositeT s n2 fs =>
        unfold register at h
        simp only [PgType.schema, PgType.name] at h
        match hL : lookupReg r (s, n2) with
        | some c =>
          rw [hL] at h
          simp at h
          exact ⟨[], by simp [← h.2]⟩
        | none =>
          rw [hL] at h
          simp only at h
          match hrec : registerFields r fs with
          | .error e0 => rw [hrec] at h; simp [bind, Except.bind] at h
          | .ok p =>
            obtain ⟨ftys, r₁⟩ := p
            rw [hrec] at h
            simp [bind, Except.bind] at h
            have hse : sizeOf fs < n := by
              simp at hsz
              omega
            obtain ⟨ext₁, hext₁⟩ := ihf r fs ftys r₁ hse hrec
            refine ⟨ext₁ ++ [((s, n2), ty)], ?_⟩
            rw [← h.2, ← h.1, hext₁, List.append_assoc]
    · intro r fs tys rt hsz h
      cases fs with
      | nil =>
        unfold registerFields at h
        simp at h
        exact ⟨[], by simp [← h.2]⟩
      | cons hd rest =>
        obtain ⟨a, ft⟩ := hd
        unfold registerFields at h
        simp only at h
        match hrec : register r ft with
        | .error e0 => rw [hrec] at h; simp [bind, Except.bind] at h
        | .ok p =>
          obtain ⟨ty1, r₁⟩ := p
          rw [hrec] at h
          simp only [bind, Except.bind] at h
          match hrest : registerFields r₁ rest with
          | .error e0 => rw [hrest] at h; simp at h
          | .ok q =>
            obtain ⟨tys₀, r₂⟩ := q
            rw [hrest] at h
            simp at h
            have hs1 : sizeOf ft < n := by
              simp at hsz
              omega
            have hs2 : sizeOf rest < n := by
              simp at hsz
              omega
            obtain ⟨e1, he1⟩ := ihr r ft ty1 r₁ hs1 hrec
            obtain ⟨e2, he2⟩ := ihf r₁ rest tys₀ r₂ hs2 hrest
            exact ⟨e1 ++ e2, by rw [← h.2, he2, he1, List.append_assoc]⟩

theorem register_extends {r rt : Registrar} {t : PgType} {ty : CornucopiaType}
    (h : register r t = .ok (ty, rt)) : ∃ ext, rt = r ++ ext :=
  (register_extends_all (sizeOf t + 1)).1 r t ty rt (Nat.lt_succ_self _) h

/-- The query's row-descriptor resolution exactly as `prepare_query`
performs it: the implicit nullable idents (the PgCompatible row list or
the Extended implicit descriptor) under the auto-derived UpperCamelCase
row name, or a named annotation's idents resolved against the module's
row annotations. -/
def row_idents (row_types : List TypeAnnotationListItem) (path : String) :
    ValidatedQuery → Except ValidationError (Parsed String × List (Parsed NullableIdent))
  | .pgCompatible name _ row _ => .ok (name.map (fun x => toUpperCamelCase x), row)
  | .extended name _ _ row _ =>
    match row with
    | .implicit idents => .ok (name.map (fun x => toUpperCamelCase x), idents)
    | .named named_row =>
      (unknown_named_struct path named_row row_types).map (fun idents => (named_row, idents))

/-- The row-field loop only appends to the registrar. -/
theorem register_row_fields_extends {registrar r' : Registrar} {cols : List Column}
    {nullable : List (Parsed NullableIdent)} {name : Parsed String} {path : String}
    {fs : List PreparedField}
    (h : register_row_fields registrar cols nullable name path = (r', .ok fs)) :
    ∃ ext, r' = registrar ++ ext := by
  induction cols generalizing registrar r' fs with
  | nil =>
    rw [register_row_fields] at h
    simp at h
    exact ⟨[], by simp [← h.1]⟩
  | cons col rest ih =>
    rw [register_row_fields] at h
    cases hreg : register registrar col.ty with
    | error e => rw [hreg] at h; simp at h
    | ok p =>
      obtain ⟨ty, r₁⟩ := p
      rw [hreg] at h
      simp only at h
      match hrest : register_row_fields r₁ rest nullable name path with
      | (r₂, .error e) => rw [hrest] at h; simp [Except.map] at h
      | (r₂, .ok fs₀) =>
        rw [hrest] at h
        simp [Except.map] at h
        obtain ⟨e1, he1⟩ := register_extends hreg
        obtain ⟨e2, he2⟩ := ih hrest
        exact ⟨e1 ++ e2, by rw [← h.1, he2, he1, List.append_assoc]⟩

/-- The PgCompatible parameter loop only appends to the registrar. -/
theorem register_param_fields_pg_extends {registrar r' : Registrar}
    {pairs : List (Parsed NullableIdent × PgType)} {name : Parsed String} {path : String}
    {fs : List PreparedField}
    (h : register_param_fields_pg registrar pairs name path = (r', .ok fs)) :
    ∃ ext, r' = registrar ++ ext := by
  induction pairs generalizing registrar r' fs with
  | nil =>
    rw [register_param_fields_pg] at h
    simp at h
    exact ⟨[], by simp [← h.1]⟩
  | cons pr rest ih =>
    rw [register_param_fields_pg] at h
    cases hreg : register registrar pr.2 with
    | error e => rw [hreg] at h; simp at h
    | ok p =>
      obtain ⟨ty, r₁⟩ := p
      rw [hreg] at h
      simp only at h
      match hrest : register_param_fields_pg r₁ rest name path with
      | (r₂, .error e) => rw [hrest] at h; simp [Except.map] at h
      | (r₂, .ok fs₀) =>
        rw [hrest] at h
        simp [Except.map] at h
        obtain ⟨e1, he1⟩ := register_extends hreg
        obtain ⟨e2, he2⟩ := ih hrest
        exact ⟨e1 ++ e2, by rw [← h.1, he2, he1, List.append_assoc]⟩

/-- The Extended parameter loop only appends to the registrar. -/
theorem register_param_fields_ext_extends {registrar r' : Registrar}
    {pairs : List (Parsed String × PgType)} {nullable : List (Parsed NullableIdent)}
    {name : Parsed String} {path : String} {fs : List PreparedField}
    (h : register_param_fields_ext registrar pairs nullable name path = (r', .ok fs)) :
    ∃ ext, r' = registrar ++ ext := by
  induction pairs generalizing registrar r' fs with
  | nil =>
    rw [register_param_fields_ext] at h
    simp at h
    exact ⟨[], by simp [← h.1]⟩
  | cons pr rest ih =>
    rw [register_param_fields_ext] at h
    cases hreg : register registrar pr.2 with
    | error e => rw [hreg] at h; simp at h
    | ok p =>
      obtain ⟨ty, r₁⟩ := p
      rw [hreg] at h
      simp only at h
      match hrest : register_param_fields_ext r₁ rest nullable name path with
      | (r₂, .error e) => rw [hrest] at h; simp [Except.map] at h
      | (r₂, .ok fs₀) =>
        rw [hrest] at h
        simp [Except.map] at h
        obtain ⟨e1, he1⟩ := register_extends hreg
        obtain ⟨e2, he2⟩ := ih hrest
        exact ⟨e1 ++ e2, by rw [← h.1, he2, he1, List.append_assoc]⟩

/-- Each built row field's type is registered in the loop's final
registrar under the column's wire `(schema, name)` key. -/
theorem register_row_fields_mem {registrar r' : Registrar} {cols : List Column}
    {nullable : List (Parsed NullableIdent)} {name : Parsed String} {path : String}
    {fs : List PreparedField}
    (h : register_row_fields registrar cols nullable name path = (r', .ok fs)) :
    ∀ (j : Nat) (col : Column), cols[j]? = some col →
      ∃ ty : CornucopiaType, ((col.ty.schema, col.ty.name), ty) ∈ r' ∧
        fs[j]? = some ⟨col.name, ty,
          nullable.any (fun x => x.value.name == col.name), false⟩ := by
  induction cols generalizing registrar r' fs with
  | nil =>
    intro j col hc
    simp at hc
  | cons col0 rest ih =>
    rw [register_row_fields] at h
    cases hreg : register registrar col0.ty with
    | error e => rw [hreg] at h; simp at h
    | ok p =>
      obtain ⟨ty, r₁⟩ := p
      rw [hreg] at h
      simp only at h
      match hrest : register_row_fields r₁ rest nullable name path with
      | (r₂, .error e) => rw [hrest] at h; simp [Except.map] at h
      | (r₂, .ok fs₀) =>
        rw [hrest] at h
        simp [Except.map] at h
        obtain ⟨hr2, hfs⟩ := h
        intro j col hc
        cases j with
        | zero =>
          simp at hc
          subst hc
          refine ⟨ty, ?_, by simp [← hfs]⟩
          have hmem := register_mem hreg
          obtain ⟨ext, hext⟩ := register_row_fields_extends hrest
          rw [← hr2, hext]
          exact List.mem_append_left _ hmem
        | succ j0 =>
          simp at hc
          obtain ⟨ty', hmem, hget⟩ := ih hrest j0 col hc
          refine ⟨ty', by rw [← hr2]; exact hmem, ?_⟩
          simp [← hfs]
          exact hget

/-- The ok path of `prepare_query`, exposing the registrar threading and
the query's own row descriptor. -/
theorem prepare_query_ok_row {client : Client} {module : PreparedModule}
    {registrar : Registrar} {param_types row_types : List TypeAnnotationListItem}
    {query : ValidatedQuery} {m' : PreparedModule} {r' : Registrar} {u : Unit}
    (h : prepare_query client module registrar param_types row_types query
      = (m', r', .ok u)) :
    ∃ stmt rmid r₂ params_name row_name params_fields row_fields nullable,
      client query.sql_str = .ok stmt ∧
      (∃ ext, rmid = registrar ++ ext) ∧
      row_idents row_types module.path query = .ok (row_name, nullable) ∧
      build_row_fields rmid stmt.columns nullable query.name module.path
        = (r₂, .ok row_fields) ∧
      finalize_query module r₂ query.name params_name params_fields row_name row_fields
        query.sql_str = (m', r', .ok u) := by
  simp only [prepare_query] at h
  split at h
  · simp at h
  · rename_i stmt hclient
    split at h
    · rename_i name ps row sql
      match h1 : register_param_fields_pg registrar (ps.zip stmt.params) name module.path with
      | (r₁, .error e) => rw [h1] at h; simp at h
      | (r₁, .ok pf) =>
        rw [h1] at h
        simp only at h
        match h2 : build_row_fields r₁ stmt.columns row name module.path with
        | (r₂, .error e) => rw [h2] at h; simp at h
        | (r₂, .ok rf) =>
          rw [h2] at h
          simp only at h
          exact ⟨stmt, r₁, r₂, _, _, pf, rf, row, hclient,
            register_param_fields_pg_extends h1, rfl, h2, h⟩
    · rename_i name params bind_params row sql
      split at h
      · simp at h
      · rename_i pres params_name nullable_params hpres
        split at h
        · simp at h
        · rename_i rres row_name nullable_row hrres
          match h1 : build_param_fields_ext registrar bind_params stmt.params
              nullable_params name module.path with
          | (r₁, .error e) => rw [h1] at h; simp at h
          | (r₁, .ok pf) =>
            rw [h1] at h
            simp only at h
            match h2 : build_row_fields r₁ stmt.columns nullable_row name module.path with
            | (r₂, .error e) => rw [h2] at h; simp at h
            | (r₂, .ok rf) =>
              rw [h2] at h
              simp only at h
              refine ⟨stmt, r₁, r₂, params_name, row_name, pf, rf, nullable_row, hclient,
                register_param_fields_ext_extends (build_param_fields_ext_ok h1), ?_, h2, h⟩
              cases row with
              | implicit idents =>
                simp only [row_idents]
                exact hrres
              | named named_row =>
                simp only [row_idents]
                exact hrres

/-- A successful `prepare_query` only appends to the registrar. -/
theorem prepare_query_extends {client : Client} {module : PreparedModule}
    {registrar : Registrar} {param_types row_types : List TypeAnnotationListItem}
    {query : ValidatedQuery} {m' : PreparedModule} {r' : Registrar} {u : Unit}
    (h : prepare_query client module registrar param_types row_types query
      = (m', r', .ok u)) : ∃ ext, r' = registrar ++ ext := by
  obtain ⟨stmt, rmid, r₂, pn, rn, pf, rf, nul, hclient, ⟨e1, he1⟩, hri, hbuild, hfin⟩ :=
    prepare_query_ok_row h
  obtain ⟨e2, he2⟩ := register_row_fields_extends (build_row_fields_ok hbuild)
  have hr' := (finalize_query_ok_spec hfin).1
  exact ⟨e1 ++ e2, by rw [hr', he2, he1, List.append_assoc]⟩

/-- A successful `prepare_query` on a fresh name preserves existing query
lookups, existing rows, registrar entries, and the module path. -/
theorem prepare_query_preserves {client : Client} {module : PreparedModule}
    {registrar : Registrar} {param_types row_types : List TypeAnnotationListItem}
    {query : ValidatedQuery} {m' : PreparedModule} {r' : Registrar} {u : Unit}
    (h : prepare_query client module registrar param_types row_types query
      = (m', r', .ok u))
    (hfresh : lookupIdx module.queries query.name.value = none) :
    (∀ (k : String) (i : Nat) (pq : PreparedQuery),
      lookupIdx module.queries k = some (i, pq) → lookupIdx m'.queries k = some (i, pq)) ∧
    (∀ (j : Nat) (re : String × PreparedRow),
      module.rows[j]? = some re → m'.rows[j]? = some re) ∧
    (∀ en : (String × String) × CornucopiaType, en ∈ registrar → en ∈ r') ∧
    m'.path = module.path := by
  obtain ⟨stmt, rmid, r₂, pn, rn, pf, rf, nul, hclient, hbuild0, hplen, hrlen, hpinner, hfin⟩ :=
    prepare_query_ok_spec h
  obtain ⟨hr', hpath, hname, row_idx, hrow, hqueries, hparams⟩ := finalize_query_ok_spec hfin
  refine ⟨?_, ?_, ?_, hpath⟩
  · intro k i pq hk
    have hins := insertFull_fresh
      (⟨query.name.value, pf, row_idx, query.sql_str⟩ : PreparedQuery) hfresh
    have hq1 : m'.queries = module.queries ++
        [(query.name.value, ⟨query.name.value, pf, row_idx, query.sql_str⟩)] := by
      rw [hqueries, add_query, hins]
    rw [hq1]
    exact lookupIdx_append_left _ hk
  · rcases hrow with ⟨_, hrm, _⟩ | ⟨_, p, har, _⟩
    · intro j re hre
      rw [hrm]
      exact hre
    · obtain ⟨row, hshape, _, _, _, _⟩ := add_row_ok_spec har
      rcases hshape with hs | ⟨hs, _, _⟩
      · intro j re hre
        rw [hs]
        exact hre
      · intro j re hre
        rw [hs, List.getElem?_append, if_pos (List.getElem?_eq_some.mp hre).1]
        exact hre
  · obtain ⟨ext, hext⟩ := prepare_query_extends h
    intro en hen
    rw [hext]
    exact List.mem_append_left _ hen

/-- The per-module loop (on pairwise-fresh query names) preserves
existing query lookups, rows, registrar entries, and the path. -/
theorem prepare_queries_loop_preserves {client : Client}
    {param_types row_types : List TypeAnnotationListItem} :
    ∀ (qs : List ValidatedQuery) (module : PreparedModule) (registrar : Registrar)
      (m' : PreparedModule) (r' : Registrar) (u : Unit),
      prepare_queries_loop client module registrar param_types row_types qs
        = (m', r', .ok u) →
      (∀ q ∈ qs, q.name.value ∉ module.queries.map Prod.fst) →
      (qs.map (fun q => q.name.value)).Nodup →
      (∀ (k : String) (i : Nat) (pq : PreparedQuery),
        lookupIdx module.queries k = some (i, pq) → lookupIdx m'.queries k = some (i, pq)) ∧
      (∀ (j : Nat) (re : String × PreparedRow),
        module.rows[j]? = some re → m'.rows[j]? = some re) ∧
      (∀ en : (String × String) × CornucopiaType, en ∈ registrar → en ∈ r') ∧
      m'.path = module.path := by
  intro qs
  induction qs with
  | nil =>
    intro module registrar m' r' u h _ _
    simp only [prepare_queries_loop] at h
    simp at h
    obtain ⟨h1, h2⟩ := h
    subst h1
    subst h2
    exact ⟨fun k i pq hk => hk, fun j re hr => hr, fun en he => he, rfl⟩
  | cons q rest ih =>
    intro module registrar m' r' u h hnotin hnd
    simp only [prepare_queries_loop] at h
    match hpq : prepare_query client module registrar param_types row_types q with
    | (m₁, r₁, res) =>
      rw [hpq] at h
      cases res with
      | err e => simp at h
      | panic m0 => simp at h
      | ok u0 =>
        have hfresh : lookupIdx module.queries q.name.value = none := by
          rw [lookupIdx_none_iff]
          intro e he hek
          exact hnotin q (by simp) (by
            rw [← hek]
            exact List.mem_map_of_mem Prod.fst he)
        obtain ⟨hkq, hkr, hkm, hkp⟩ := prepare_query_preserves hpq hfresh
        have hkeys := prepare_query_keys hpq hfresh
        have hnd2 : (q.name.value :: rest.map (fun q => q.name.value)).Nodup := by
          simpa using hnd
        obtain ⟨hhead, htail⟩ := List.nodup_cons.mp hnd2
        have hnotin1 : ∀ q' ∈ rest, q'.name.value ∉ m₁.queries.map Prod.fst := by
          intro q' hq' hmem
          rw [hkeys] at hmem
          rcases List.mem_append.mp hmem with hmem | hmem
          · exact hnotin q' (by simp [hq']) hmem
          · simp at hmem
            exact hhead (hmem ▸ List.mem_map_of_mem _ hq')
        obtain ⟨hq2, hr2, hm2, hp2⟩ := ih m₁ r₁ m' r' u h hnotin1 htail
        exact ⟨fun k i pq hk => hq2 k i pq (hkq k i pq hk),
          fun j re hr => hr2 j re (hkr j re hr),
          fun en he => hm2 en (hkm en he), hp2.trans hkp⟩

/-- The per-module loop appends exactly the processed query names to the
queries map's key sequence. -/
theorem prepare_queries_loop_keys {client : Client}
    {param_types row_types : List TypeAnnotationListItem} :
    ∀ (qs : List ValidatedQuery) (module : PreparedModule) (registrar : Registrar)
      (m' : PreparedModule) (r' : Registrar) (u : Unit),
      prepare_queries_loop client module registrar param_types row_types qs
        = (m', r', .ok u) →
      (∀ q ∈ qs, q.name.value ∉ module.queries.map Prod.fst) →
      (qs.map (fun q => q.name.value)).Nodup →
      m'.queries.map Prod.fst =
        module.queries.map Prod.fst ++ qs.map (fun q => q.name.value) := by
  intro qs
  induction qs with
  | nil =>
    intro module registrar m' r' u h _ _
    simp only [prepare_queries_loop] at h
    simp at h
    obtain ⟨h1, h2⟩ := h
    subst h1
    simp
  | cons q rest ih =>
    intro module registrar m' r' u h hnotin hnd
    simp only [prepare_queries_loop] at h
    match hpq : prepare_query client module registrar param_types row_types q with
    | (m₁, r₁, res) =>
      rw [hpq] at h
      cases res with
      | err e => simp at h
      | panic m0 => simp at h
      | ok u0 =>
        have hfresh : lookupIdx module.queries q.name.value = none := by
          rw [lookupIdx_none_iff]
          intro e he hek
          exact hnotin q (by simp) (by
            rw [← hek]
            exact List.mem_map_of_mem Prod.fst he)
        have hkeys := prepare_query_keys hpq hfresh
        have hnd2 : (q.name.value :: rest.map (fun q => q.name.value)).Nodup := by
          simpa using hnd
        obtain ⟨hhead, htail⟩ := List.nodup_cons.mp hnd2
        have hnotin1 : ∀ q' ∈ rest, q'.name.value ∉ m₁.queries.map Prod.fst := by
          intro q' hq' hmem
          rw [hkeys] at hmem
          rcases List.mem_append.mp hmem with hmem | hmem
          · exact hnotin q' (by simp [hq']) hmem
          · simp at hmem
            exact hhead (hmem ▸ List.mem_map_of_mem _ hq')
        have := ih m₁ r₁ m' r' u h hnotin1 htail
        rw [this, hkeys]
        simp

/-- The per-module loop interns, for every processed query, an entry
whose row (when present) matches the wire columns of the query's own
prepared statement, with types registered in the final registrar and
nullability drawn from the query's own row descriptor. -/
theorem prepare_queries_loop_rows {client : Client}
    {param_types row_types : List TypeAnnotationListItem} :
    ∀ (qs : List ValidatedQuery) (module : PreparedModule) (registrar : Registrar)
      (m' : PreparedModule) (r' : Registrar) (u : Unit),
      prepare_queries_loop client module registrar param_types row_types qs
        = (m', r', .ok u) →
      (∀ q ∈ qs, q.name.value ∉ module.queries.map Prod.fst) →
      (qs.map (fun q => q.name.value)).Nodup →
      ∀ q ∈ qs, ∃ (i : Nat) (pq : PreparedQuery),
        lookupIdx m'.queries q.name.value = some (i, pq) ∧
        ∀ (ri : Nat) (ci : List Nat), pq.row = some (ri, ci) →
          ∃ (rower : String × PreparedRow) (stmt : Statement) (rn : Parsed String)
            (nullable : List (Parsed NullableIdent)),
            m'.rows[ri]? = some rower ∧
            client q.sql_str = .ok stmt ∧
            row_idents row_types module.path q = .ok (rn, nullable) ∧
            rower.2.fields.length = ci.length ∧
            ∀ (j x : Nat), ci[j]? = some x →
              ∃ (col : Column) (ty : CornucopiaType), stmt.columns[x]? = some col ∧
                ((col.ty.schema, col.ty.name), ty) ∈ r' ∧
                rower.2.fields[j]? = some (PreparedField.mk col.name ty
                  (nullable.any (fun nn => nn.value.name == col.name)) false) := by
  intro qs
  induction qs with
  | nil =>
    intro module registrar m' r' u h _ _ q hq
    simp at hq
  | cons q0 rest ih =>
    intro module registrar m' r' u h hnotin hnd q hq
    simp only [prepare_queries_loop] at h
    match hpq : prepare_query client module registrar param_types row_types q0 with
    | (m₁, r₁, res) =>
      rw [hpq] at h
      cases res with
      | err e => simp at h
      | panic m0 => simp at h
      | ok u0 =>
        have hfresh : lookupIdx module.queries q0.name.value = none := by
          rw [lookupIdx_none_iff]
          intro e he hek
          exact hnotin q0 (by simp) (by
            rw [← hek]
            exact List.mem_map_of_mem Prod.fst he)
        have hkeys := prepare_query_keys hpq hfresh
        have hnd2 : (q0.name.value :: rest.map (fun q => q.name.value)).Nodup := by
          simpa using hnd
        obtain ⟨hhead, htail⟩ := List.nodup_cons.mp hnd2
        have hnotin1 : ∀ q' ∈ rest, q'.name.value ∉ m₁.queries.map Prod.fst := by
          intro q' hq' hmem
          rw [hkeys] at hmem
          rcases List.mem_append.mp hmem with hmem | hmem
          · exact hnotin q' (by simp [hq']) hmem
          · simp at hmem
            exact hhead (hmem ▸ List.mem_map_of_mem _ hq')
        obtain ⟨hkq, hkr, hkm, hkp⟩ :=
          prepare_queries_loop_preserves rest m₁ r₁ m' r' u h hnotin1 htail
        rcases List.mem_cons.mp hq with heq | hq1
        · subst heq
          obtain ⟨stmt, rmid, r₂, pn, rn, pf, rf, nul, hclient, hext0, hri, hbuild, hfin⟩ :=
            prepare_query_ok_row hpq
          obtain ⟨hr1eq, hpath1, hname1, row_idx, hrow, hqueries, hparams⟩ :=
            finalize_query_ok_spec hfin
          have hins := insertFull_fresh
            (⟨q.name.value, pf, row_idx, q.sql_str⟩ : PreparedQuery) hfresh
          have hq1m : m₁.queries = module.queries ++
              [(q.name.value, ⟨q.name.value, pf, row_idx, q.sql_str⟩)] := by
            rw [hqueries, add_query, hins]
          have hlook1 : lookupIdx m₁.queries q.name.value =
              some (module.queries.length, ⟨q.name.value, pf, row_idx, q.sql_str⟩) := by
            rw [hq1m]
            exact lookupIdx_append_right _ hfresh
          refine ⟨module.queries.length, ⟨q.name.value, pf, row_idx, q.sql_str⟩,
            hkq _ _ _ hlook1, ?_⟩
          intro ri ci hrci
          have hrci2 : row_idx = some (ri, ci) := hrci
          rcases hrow with ⟨hre, hrm, hriN⟩ | ⟨hre, p, har, hriS⟩
          · rw [hriN] at hrci2
            simp at hrci2
          · rw [hriS] at hrci2
            have hp : p = (ri, ci) := Option.some.inj hrci2
            subst hp
            obtain ⟨row, hshape, hlookrow, hsort, hlen, hcorr⟩ := add_row_ok_spec har
            have hget1 : m₁.rows[ri]? = some (rn.value, row) := by
              have hg := lookupIdx_get hlookrow
              rwa [List.get?_eq_getElem?] at hg
            have hspecmem := register_row_fields_mem (build_row_fields_ok hbuild)
            have hrflen : rf.length = stmt.columns.length :=
              (register_row_fields_spec (build_row_fields_ok hbuild)).1
            refine ⟨(rn.value, row), stmt, rn, nul, hkr ri _ hget1, hclient, hri,
              hlen.symm, ?_⟩
            intro j x hjx
            obtain ⟨fl, hflx, hfli⟩ := hcorr j x hjx
            have hxlt : x < stmt.columns.length := by
              rw [← hrflen]
              exact (List.getElem?_eq_some.mp hflx).1
            have hcolx : stmt.columns[x]? = some stmt.columns[x] :=
              List.getElem?_eq_getElem hxlt
            obtain ⟨ty, hmem, hfx⟩ := hspecmem x _ hcolx
            have hmem1 : (((stmt.columns[x]).ty.schema, (stmt.columns[x]).ty.name), ty)
                ∈ r₁ := by
              rw [hr1eq]
              exact hmem
            have hfl : fl = ⟨(stmt.columns[x]).name, ty,
                nul.any (fun nn => nn.value.name == (stmt.columns[x]).name), false⟩ := by
              rw [hflx] at hfx
              exact Option.some.inj hfx
            refine ⟨stmt.columns[x], ty, hcolx, hkm _ hmem1, ?_⟩
            rw [← hfl]
            exact hfli
        · obtain ⟨i, pq, hlook, hfacts⟩ := ih m₁ r₁ m' r' u h hnotin1 htail q hq1
          refine ⟨i, pq, hlook, ?_⟩
          intro ri ci hrci
          obtain ⟨rower, stmt, rn, nul, hrow1, hcl, hri, hlen, hcorr⟩ := hfacts ri ci hrci
          have hp1 := (prepare_query_preserves hpq hfresh).2.2.2
          rw [hp1] at hri
          exact ⟨rower, stmt, rn, nul, hrow1, hcl, hri, hlen, hcorr⟩

/-- Module-level wrapper of the loop correspondence. -/
theorem prepare_module_rows {client : Client} {registrar r' : Registrar}
    {vm : ValidatedModule} {pm : PreparedModule}
    (h : prepare_module client registrar vm = (r', .ok pm))
    (hnd : (vm.queries.map (fun q => q.name.value)).Nodup) :
    ∀ q ∈ vm.queries, ∃ (i : Nat) (pq : PreparedQuery),
      lookupIdx pm.queries q.name.value = some (i, pq) ∧
      ∀ (ri : Nat) (ci : List Nat), pq.row = some (ri, ci) →
        ∃ (rower : String × PreparedRow) (stmt : Statement) (rn : Parsed String)
          (nullable : List (Parsed NullableIdent)),
          pm.rows[ri]? = some rower ∧
          client q.sql_str = .ok stmt ∧
          row_idents vm.row_types vm.path q = .ok (rn, nullable) ∧
          rower.2.fields.length = ci.length ∧
          ∀ (j x : Nat), ci[j]? = some x →
            ∃ (col : Column) (ty : CornucopiaType), stmt.columns[x]? = some col ∧
              ((col.ty.schema, col.ty.name), ty) ∈ r' ∧
              rower.2.fields[j]? = some (PreparedField.mk col.name ty
                (nullable.any (fun nn => nn.value.name == col.name)) false) := by
  simp only [prepare_module] at h
  match hloop : prepare_queries_loop client ⟨vm.path, vm.name, [], [], []⟩ registrar
      vm.param_types vm.row_types vm.queries with
  | (m, r, res) =>
    rw [hloop] at h
    cases res with
    | err e => simp at h
    | panic m0 => simp at h
    | ok u =>
      simp at h
      obtain ⟨h1, h2⟩ := h
      subst h1
      subst h2
      exact prepare_queries_loop_rows vm.queries _ registrar _ _ u hloop
        (by intro q hq hmem; simp at hmem) hnd

/-- Module-level wrapper of the key-sequence lemma. -/
theorem prepare_module_keys {client : Client} {registrar r' : Registrar}
    {vm : ValidatedModule} {pm : PreparedModule}
    (h : prepare_module client registrar vm = (r', .ok pm))
    (hnd : (vm.queries.map (fun q => q.name.value)).Nodup) :
    pm.queries.map Prod.fst = vm.queries.map (fun q => q.name.value) := by
  simp only [prepare_module] at h
  match hloop : prepare_queries_loop client ⟨vm.path, vm.name, [], [], []⟩ registrar
      vm.param_types vm.row_types vm.queries with
  | (m, r, res) =>
    rw [hloop] at h
    cases res with
    | err e => simp at h
    | panic m0 => simp at h
    | ok u =>
      simp at h
      obtain ⟨h1, h2⟩ := h
      subst h1
      subst h2
      have := prepare_queries_loop_keys vm.queries _ registrar _ _ u hloop
        (by intro q hq hmem; simp at hmem) hnd
      simpa using this

/-- C2, counterexample: `add_row` on a fresh name with fields not already
sorted by name does not return the identity permutation.  Submitting
`[b, a]` stores `[a, b]` and returns the permutation `[1, 0]`, which
differs from the identity `List.range 2 = [0, 1]`. -/
theorem C2_identity_permutation_cex :
    add_row "queries/m.sql" [] ⟨"R", posd⟩ [fieldB, fieldA] =
      ([("R", ⟨"R", [fieldA, fieldB], false⟩)], .ok (0, [1, 0])) ∧
    ([1, 0] : List Nat) ≠ List.range 2 := by
  constructor
  · simp [add_row, lookupIdx, named_struct_field, sort_by_name, sequenceOption, position,
      fieldA, fieldB, tyText, List.insertionSort, List.orderedInsert]
    decide
  · decide

/-- C2, amended: on a fresh name, `add_row` stores the fields sorted by
name, computes `is_copy` as the conjunction of the fields' copyness, and
returns the new index (the previous row count) together with the
permutation that sends each stored (sorted) field to its position in the
submitted list; this permutation is the identity exactly when the
submitted fields are already strictly sorted by name. -/
theorem C2_add_row_fresh {path : String} {rows : List (String × PreparedRow)}
    {name : Parsed String} {fields : List PreparedField}
    (hne : fields.isEmpty = false) (hfresh : lookupIdx rows name.value = none) :
    ∃ ixs, add_row path rows name fields =
      (rows ++ [(name.value,
        ⟨name.value, sort_by_name fields, fields.all (fun f => f.ty.is_copy)⟩)],
        .ok (rows.length, ixs)) ∧
      sequenceOption ((sort_by_name fields).map (fun f => position (fun it => it == f) fields))
        = some ixs ∧
      (List.Pairwise (fun a b => a.name < b.name) fields → ixs = List.range fields.length) := by
  rw [add_row_vacant hne hfresh]
  have hL2 := lookupIdx_append_right
    (⟨name.value, sort_by_name fields, fields.all (fun f => f.ty.is_copy)⟩ : PreparedRow)
    hfresh
  rw [add_row_occupied hne hL2]
  have hns : named_struct_field path name
      (⟨name.value, sort_by_name fields,
        fields.all (fun f => f.ty.is_copy)⟩ : PreparedRow).fields fields = .ok () := by
    unfold named_struct_field
    rw [if_pos rfl]
  rw [hns]
  have hsome : (sequenceOption
      ((sort_by_name fields).map (fun f => position (fun it => it == f) fields))).isSome := by
    apply sequenceOption_isSome
    intro o ho
    simp at ho
    obtain ⟨f, hf, rfl⟩ := ho
    exact position_isSome ⟨f, mem_sort_by_name.mp hf, by simp⟩
  match hsq : sequenceOption
      ((sort_by_name fields).map (fun f => position (fun it => it == f) fields)) with
  | none => rw [hsq] at hsome; simp at hsome
  | some ixs =>
    refine ⟨ixs, rfl, rfl, ?_⟩
    intro hsorted
    have hself := sort_by_name_eq_self hsorted
    rw [hself] at hsq
    have hnd := nodup_of_name_sorted hsorted
    have hmap : fields.map (fun f => position (fun it => it == f) fields)
        = (List.range fields.length).map some := by
      apply List.ext_getElem?
      intro j
      rw [List.getElem?_map, List.getElem?_map]
      match hj : fields[j]? with
      | none =>
        have hge : fields.length ≤ j := by
          by_contra hlt
          rw [List.getElem?_eq_none_iff] at hj
          omega
        rw [List.getElem?_eq_none (by simpa using hge)]
        rfl
      | some f =>
        have hlt : j < fields.length := (List.getElem?_eq_some.mp hj).1
        rw [List.getElem?_range hlt]
        simp [position_self_of_nodup hnd hj]
    rw [hmap, sequenceOption_map_some] at hsq
    exact (Option.some.inj hsq).symm

/-- C2, witness: the amended theorem applied at the concrete fresh-name
interning of two unsorted fields. -/
theorem C2_add_row_fresh_witness :
    ∃ ixs, add_row "queries/m.sql" [] ⟨"R", posd⟩ [fieldB, fieldA] =
      ([("R", ⟨"R", sort_by_name [fieldB, fieldA],
        [fieldB, fieldA].all (fun f => f.ty.is_copy)⟩)], .ok (0, ixs)) ∧
      sequenceOption ((sort_by_name [fieldB, fieldA]).map
        (fun f => position (fun it => it == f) [fieldB, fieldA])) = some ixs ∧
      (List.Pairwise (fun a b => a.name < b.name) [fieldB, fieldA] →
        ixs = List.range [fieldB, fieldA].length) :=
  C2_add_row_fresh (by rfl) (by rfl)

/-- C8, counterexample: rendering a database error that carries no
server-side payload reaches `as_db_error().unwrap()`; the model returns
`none`, the panic outcome of `Display`.  Such errors arise on user input
that makes the client surface a connection-level failure while preparing,
so the Display unwrap is not unreachable. -/
theorem C8_display_unwrap_cex :
    Error.fmt ⟨⟨"q", posd⟩, .db ⟨none⟩, "queries/m.sql"⟩ = none := rfl

/-- Whether an error's Db variant carries a server payload (non-Db
variants trivially qualify). -/
def Error.db_payload_present (e : Error) : Bool :=
  match e.err with
  | .db pe => pe.as_db_error.isSome
  | _ => true

/-- C8, amended: module preparation itself never panics — for every
client behavior and validated module the interning asserts and unwraps of
add_row and add_param are unreachable — and the error Display is
panic-free exactly on errors whose Db variant carries a server payload;
a payload-less Db error makes Display panic (see the counterexample). -/
theorem C8_no_panic :
    (∀ (client : Client) (registrar : Registrar) (vm : ValidatedModule) (msg : String),
      (prepare_module client registrar vm).2 ≠ RRes.panic msg) ∧
    (∀ e : Error, e.db_payload_present = true → (Error.fmt e).isSome = true) := by
  constructor
  · intro client registrar vm msg
    exact prepare_module_no_panic
  · intro e h
    unfold Error.db_payload_present at h
    unfold Error.fmt
    match he : e.err with
    | .db pe =>
      rw [he] at h
      simp at h
      match hp : pe.as_db_error with
      | some msg => simp [hp]
      | none => rw [hp] at h; simp at h
    | .validation v => simp
    | .postgresType re => simp
    | .duplicateSqlColName n => simp

/-- C8, witness: the amended theorem applied to a concrete module
preparation and to a concrete payload-carrying database error. -/
theorem C8_no_panic_witness :
    (prepare_module clientBook [] vmBook).2 ≠ RRes.panic "boom" ∧
    (Error.fmt ⟨⟨"q", posd⟩, .db ⟨some "boom"⟩, "queries/m.sql"⟩).isSome = true :=
  ⟨C8_no_panic.1 clientBook [] vmBook "boom",
    C8_no_panic.2 ⟨⟨"q", posd⟩, .db ⟨some "boom"⟩, "queries/m.sql"⟩ rfl⟩

/-- The rendering the code produces for a duplicate-column error. -/
def dupRendered : String :=
  "Error while preparing query \"q\" [file: \"queries/m.sql\", line: 3]:\nTwo or more columns have the same name: `id`. Consider disambiguing the column names with `AS` clauses."

/-- The prefix demanded by the claimed parenthesized rendering form. -/
def parenPrefix : String :=
  "Error while preparing query \"q\" [file: \"queries/m.sql\", line: 3] ("

/-- C9, counterexample: the duplicate-column diagnostic is a preparation
diagnostic that is not a validation error, yet it is rendered with
`]:` and a newline, not with the detail in parentheses: no choice of
DETAIL makes it match the claimed form. -/
theorem C9_render_shape_cex :
    Error.fmt ⟨⟨"q", posd⟩, .duplicateSqlColName "id", "queries/m.sql"⟩ = some dupRendered ∧
    ¬ ∃ detail, dupRendered = parenPrefix ++ detail ++ ")" := by
  constructor
  · decide
  · rintro ⟨d, hd⟩
    have hdata : dupRendered.data = parenPrefix.data ++ (d.data ++ [')']) := by
      rw [hd]
      simp [List.append_assoc]
    have htake := congrArg (fun l => List.take parenPrefix.data.length l) hdata
    simp only [List.take_left] at htake
    exact absurd htake (by decide)

/-- C9, amended: Db errors carrying a server payload are rendered with
the detail in parentheses; validation errors use their own Display; the
remaining variants (type registration, duplicate column) are rendered
with the same prefix followed by a colon, a newline, and the variant's
own Display — not with parentheses. -/
theorem C9_render_shape :
    (∀ (qn : Parsed String) (path : String) (pe : PgError) (msg : String),
      pe.as_db_error = some msg →
      Error.fmt ⟨qn, .db pe, path⟩ =
        some ("Error while preparing query \"" ++ qn.value ++ "\" [file: \"" ++ path ++
          "\", line: " ++ toString qn.pos.line ++ "] (" ++ msg ++ ")")) ∧
    (∀ (qn : Parsed String) (path : String) (ve : ValidationError),
      Error.fmt ⟨qn, .validation ve, path⟩ = some ve.display) ∧
    (∀ (qn : Parsed String) (path : String) (re : RegError),
      Error.fmt ⟨qn, .postgresType re, path⟩ =
        some ("Error while preparing query \"" ++ qn.value ++ "\" [file: \"" ++ path ++
          "\", line: " ++ toString qn.pos.line ++ "]:\n" ++ re.display)) ∧
    (∀ (qn : Parsed String) (path : String) (n : String),
      Error.fmt ⟨qn, .duplicateSqlColName n, path⟩ =
        some ("Error while preparing query \"" ++ qn.value ++ "\" [file: \"" ++ path ++
          "\", line: " ++ toString qn.pos.line ++ "]:\n" ++
          (ErrorVariant.duplicateSqlColName n).display)) := by
  refine ⟨?_, ?_, ?_, ?_⟩
  · intro qn path pe msg h
    simp [Error.fmt, h]
  · intro qn path ve
    simp [Error.fmt]
  · intro qn path re
    simp [Error.fmt, ErrorVariant.display]
  · intro qn path n
    simp [Error.fmt]

/-- C9, witness: the amended theorem's Db clause applied to a concrete
payload-carrying database error. -/
theorem C9_render_shape_witness :
    Error.fmt ⟨⟨"q", posd⟩, .db ⟨some "boom"⟩, "queries/m.sql"⟩ =
      some ("Error while preparing query \"" ++ "q" ++ "\" [file: \"" ++ "queries/m.sql" ++
        "\", line: " ++ toString (3 : Nat) ++ "] (" ++ "boom" ++ ")") :=
  C9_render_shape.1 ⟨"q", posd⟩ "queries/m.sql" ⟨some "boom"⟩ "boom" rfl

/-- C3, counterexample: a module with a failing first query and a
succeeding second query.  The run returns only the first query's error
with an empty registrar: the second query was never processed (running it
alone succeeds and registers its column type), so one broken query masks
the others and the run does not report all errors. -/
theorem C3_first_error_aborts_cex :
    prepare_module clientTwo [] vmTwo =
      ([], .err ⟨⟨"q1", posd⟩, .db ⟨some "relation does not exist"⟩, "queries/m.sql"⟩) ∧
    prepare_module clientTwo [] vmGoodOnly =
      ([(("pg_catalog", "int4"), tyInt4)],
        .ok ⟨"queries/m.sql", "m",
          [("q2", ⟨"q2", [], some (0, [0]), "SELECT 1"⟩)], [],
          [("Q2", ⟨"Q2", [⟨"c", tyInt4, false, false⟩], true⟩)]⟩) := by
  constructor
  · simp [prepare_module, prepare_queries_loop, prepare_query, clientTwo, vmTwo, qBad, qGood,
      ValidatedQuery.sql_str, ValidatedQuery.name, Error.new, posd]
  · simp [prepare_module, prepare_queries_loop, prepare_query, clientTwo, vmGoodOnly, qGood,
      ValidatedQuery.sql_str, ValidatedQuery.name, register_param_fields_pg, build_row_fields,
      has_duplicate, has_duplicate_go, check_nullable_cols, nullable_column_name,
      register_row_fields, register, lookupReg, builtinCopy, PgType.schema, PgType.name,
      pgInt4, finalize_query, add_row, add_param, add_query, insertFull, lookupIdx,
      named_struct_field, sort_by_name, List.insertionSort, List.orderedInsert,
      sequenceOption, position, Parsed.map, Error.new, tyInt4, posd]
    decide

/-- C3, amended: an error is fatal for the whole module from the failing
query on — the per-module loop returns the first failure immediately and
the remaining queries are not processed. -/
theorem C3_first_error_aborts {client : Client}
    {param_types row_types : List TypeAnnotationListItem} {q : ValidatedQuery}
    {qs : List ValidatedQuery} {m : PreparedModule} {r : Registrar}
    {m₁ : PreparedModule} {r₁ : Registrar} {e : Error}
    (h : prepare_query client m r param_types row_types q = (m₁, r₁, .err e)) :
    prepare_queries_loop client m r param_types row_types (q :: qs) = (m₁, r₁, .err e) := by
  simp only [prepare_queries_loop]
  rw [h]

/-- C3, witness: the amended theorem applied to the concrete two-query
module whose first query fails. -/
theorem C3_first_error_aborts_witness :
    prepare_queries_loop clientTwo ⟨"queries/m.sql", "m", [], [], []⟩ [] [] [] [qBad, qGood] =
      (⟨"queries/m.sql", "m", [], [], []⟩, [],
        .err ⟨⟨"q1", posd⟩, .db ⟨some "relation does not exist"⟩, "queries/m.sql"⟩) := by
  apply C3_first_error_aborts
  simp [prepare_query, clientTwo, qBad, ValidatedQuery.sql_str, ValidatedQuery.name,
    Error.new, posd]

/-- C5: a prepared statement reporting two result columns with the same
name makes the row stage fail with `DuplicateSqlColName` carrying that
column's name and leaves the registrar untouched; and whenever
`prepare_query` returns a `DuplicateSqlColName` error the module is
returned unchanged, so no row (and no query or params struct) is interned
for the query. -/
theorem C5_duplicate_col_name :
    (∀ (registrar : Registrar) (stmt_cols : List Column)
      (nullable : List (Parsed NullableIdent)) (name : Parsed String) (path : String)
      (dcol : Column), has_duplicate stmt_cols = some dcol →
      build_row_fields registrar stmt_cols nullable name path =
        (registrar, .error ⟨name, .duplicateSqlColName dcol.name, path⟩)) ∧
    (∀ (client : Client) (module : PreparedModule) (registrar : Registrar)
      (param_types row_types : List TypeAnnotationListItem) (query : ValidatedQuery)
      (m' : PreparedModule) (r' : Registrar) (e : Error) (d : String),
      prepare_query client module registrar param_types row_types query = (m', r', .err e) →
      e.err = .duplicateSqlColName d → m' = module) :=
  ⟨fun _ _ _ _ _ _ h => build_row_fields_dup h,
   fun _ _ _ _ _ _ _ _ _ _ h hd => prepare_query_err_dup h hd⟩

/-- C5, witness: the theorem applied to a statement with two `id`
columns, both at the row stage and through a full `prepare_query` run. -/
theorem C5_duplicate_col_name_witness :
    build_row_fields [] [⟨"id", pgInt4⟩, ⟨"id", pgInt4⟩] [] ⟨"dup", posd⟩ "queries/m.sql"
      = ([], .error ⟨⟨"dup", posd⟩, .duplicateSqlColName "id", "queries/m.sql"⟩) ∧
    (prepare_query clientDup emptyModule [] [] [] qDup).1 = emptyModule := by
  have hdup : has_duplicate [(⟨"id", pgInt4⟩ : Column), ⟨"id", pgInt4⟩]
      = some ⟨"id", pgInt4⟩ := rfl
  constructor
  · exact C5_duplicate_col_name.1 [] _ [] ⟨"dup", posd⟩ "queries/m.sql" ⟨"id", pgInt4⟩ hdup
  · have h : prepare_query clientDup emptyModule [] [] [] qDup =
        (emptyModule, [],
          .err ⟨⟨"dup", posd⟩, .duplicateSqlColName "id", "queries/m.sql"⟩) := by
      simp [prepare_query, clientDup, qDup, ValidatedQuery.sql_str, ValidatedQuery.name,
        build_param_fields_ext, check_nullable_params, register_param_fields_ext,
        build_row_fields, has_duplicate, has_duplicate_go, Error.new, emptyModule, posd,
        pgInt4]
    have hm := C5_duplicate_col_name.2 clientDup emptyModule [] [] [] qDup emptyModule []
      ⟨⟨"dup", posd⟩, .duplicateSqlColName "id", "queries/m.sql"⟩ "id" h rfl
    rw [h]

/-- C1: in any successfully prepared module (with pairwise-distinct query
names, the validator's invariant), the queries map holds exactly one entry
per validated query, and every entry whose `row` is `some (row_idx,
col_idx)` points at an interned row whose field count equals the length of
`col_idx`; for every index `j` the wire column of the query's own prepared
statement at position `col_idx[j]` has the same name as the row's field at
`j`, the field's type is registered in the run's final registrar under the
column's wire `(schema, name)` key, and the field's nullability is the
column-name lookup in the query's own nullable-row descriptor. -/
theorem C1_row_wire_correspondence {client : Client} {registrar r' : Registrar}
    {vm : ValidatedModule} {pm : PreparedModule}
    (h : prepare_module client registrar vm = (r', .ok pm))
    (hnd : (vm.queries.map (fun q => q.name.value)).Nodup) :
    pm.queries.map Prod.fst = vm.queries.map (fun q => q.name.value) ∧
    ∀ q ∈ vm.queries, ∃ (i : Nat) (pq : PreparedQuery),
      lookupIdx pm.queries q.name.value = some (i, pq) ∧
      ∀ (ri : Nat) (ci : List Nat), pq.row = some (ri, ci) →
        ∃ (rower : String × PreparedRow) (stmt : Statement) (rn : Parsed String)
          (nullable : List (Parsed NullableIdent)),
          pm.rows[ri]? = some rower ∧
          client q.sql_str = .ok stmt ∧
          row_idents vm.row_types vm.path q = .ok (rn, nullable) ∧
          rower.2.fields.length = ci.length ∧
          ∀ (j x : Nat), ci[j]? = some x →
            ∃ (col : Column) (ty : CornucopiaType), stmt.columns[x]? = some col ∧
              ((col.ty.schema, col.ty.name), ty) ∈ r' ∧
              rower.2.fields[j]? = some (PreparedField.mk col.name ty
                (nullable.any (fun nn => nn.value.name == col.name)) false) :=
  ⟨prepare_module_keys h hnd, prepare_module_rows h hnd⟩

/-- C1, witness: the correspondence applied to the one-query module whose
query selects a single `int4` column — the interned row's field carries
the type registered for `(pg_catalog, int4)` in the run's registrar. -/
theorem C1_row_wire_correspondence_witness :
    pmGood.queries.map Prod.fst = vmGoodOnly.queries.map (fun q => q.name.value) ∧
    ∀ q ∈ vmGoodOnly.queries, ∃ (i : Nat) (pq : PreparedQuery),
      lookupIdx pmGood.queries q.name.value = some (i, pq) ∧
      ∀ (ri : Nat) (ci : List Nat), pq.row = some (ri, ci) →
        ∃ (rower : String × PreparedRow) (stmt : Statement) (rn : Parsed String)
          (nullable : List (Parsed NullableIdent)),
          pmGood.rows[ri]? = some rower ∧
          clientTwo q.sql_str = .ok stmt ∧
          row_idents vmGoodOnly.row_types vmGoodOnly.path q = .ok (rn, nullable) ∧
          rower.2.fields.length = ci.length ∧
          ∀ (j x : Nat), ci[j]? = some x →
            ∃ (col : Column) (ty : CornucopiaType), stmt.columns[x]? = some col ∧
              ((col.ty.schema, col.ty.name), ty) ∈ regInt4 ∧
              rower.2.fields[j]? = some (PreparedField.mk col.name ty
                (nullable.any (fun nn => nn.value.name == col.name)) false) :=
  C1_row_wire_correspondence prepare_module_good_eval
    (by simp [vmGoodOnly, qGood, ValidatedQuery.name])

/-- C4: in any successfully prepared module with pairwise-distinct query
names, every query index recorded in a params struct's back-edge list
points at a query whose parameter fields, sorted by name, equal the
struct's stored fields; and the `add_param` returning `ok i` is what
appended the query index to the back-edge list of the entry at `i`. -/
theorem C4_params_back_edges {client : Client} {registrar r' : Registrar}
    {vm : ValidatedModule} {pm : PreparedModule}
    (h : prepare_module client registrar vm = (r', .ok pm))
    (hnd : (vm.queries.map (fun q => q.name.value)).Nodup) :
    (∀ e ∈ pm.params, ∀ q ∈ e.2.queries,
      ∃ qe, pm.queries[q]? = some qe ∧ sort_by_name qe.2.params = e.2.fields) ∧
    (∀ (path : String) (queries : List (String × PreparedQuery))
      (params params' : List (String × PreparedParams)) (name : Parsed String)
      (query_idx i : Nat),
      add_param path queries params name query_idx = (params', RRes.ok i) →
      ∃ p old, params'[i]? = some (name.value, p) ∧ p.queries = old ++ [query_idx]) :=
  ⟨prepare_module_params_inv h hnd,
   fun _ _ _ _ _ _ _ hap => add_param_back_edge hap⟩

/-- C4, witness: the back-edge correspondence applied to the one-query
book module, whose params struct records query index 0. -/
theorem C4_params_back_edges_witness :
    ∃ qe, pmBook.queries[0]? = some qe ∧ sort_by_name qe.2.params = [titleField] :=
  (C4_params_back_edges prepare_module_book_eval
      (by simp [vmBook, qBook, ValidatedQuery.name])).1
    ("InsertBookParams", ⟨"InsertBookParams", [titleField], false, [0]⟩)
    (by simp [pmBook]) 0 (by simp)

/-- C6: the final `Preparation`'s types map is the schema-bucketed scan of
the final registrar; each schema's bucket lists, in registration order,
exactly the entries on which `prepare_type` fires; `prepare_type` fires
exactly on `Custom` registrar entries (`Simple`, `Array`, and `Domain`
wrappers are excluded); and a composite's fields are mapped positionally
in database declaration order, never sorted by name. -/
theorem C6_types_map_custom_entries :
    (∀ (client : Client) (modules : List ValidatedModule) (prep : Preparation),
      prepare client modules = .ok prep →
      ∃ r pms, prepare_modules_loop client [] modules = (r, .ok pms) ∧
        prep.types = scan_types r) ∧
    (∀ (registrar : Registrar) (s : String),
      bucketGet (scan_types registrar) s = registrar.filterMap
        (fun e => if e.1.1 = s then prepare_type registrar e.1.2 e.2 else none)) ∧
    (∀ (registrar : Registrar) (name : String) (ty : CornucopiaType),
      (prepare_type registrar name ty).isSome ↔
        ∃ k sn c p sch n, ty = CornucopiaType.custom k sn c p sch n) ∧
    (∀ (registrar : Registrar) (name sn : String)
      (fields : List (String × String × String)) (c p : Bool) (sch n : String),
      prepare_type registrar name (.custom (.compositeData fields) sn c p sch n) =
        some ⟨name, sn, .composite
          (fields.map (fun f => ⟨f.1, ref_of registrar f.2, false, false⟩)), c, p⟩) := by
  refine ⟨?_, ?_, ?_, ?_⟩
  · intro client modules prep h
    simp only [prepare] at h
    match hl : prepare_modules_loop client [] modules with
    | (r, res) =>
      rw [hl] at h
      cases res with
      | err e => simp at h
      | panic m0 => simp at h
      | ok pms =>
        simp at h
        exact ⟨r, pms, rfl, by rw [← h]⟩
  · intro registrar s
    unfold scan_types
    rw [scan_types_go_get]
    simp [bucketGet, lookupIdx]
  · intro registrar name ty
    cases ty with
    | simple pg_name c => simp [prepare_type]
    | array inner => simp [prepare_type]
    | domain inner => simp [prepare_type]
    | custom k sn c p sch n =>
      cases k <;> simp [prepare_type]
  · intro registrar name sn fields c p sch n
    rfl

/-- C6, witness: the prepare-to-scan link applied to a run whose final
registrar holds only a `Simple` type, yielding an empty types map. -/
theorem C6_types_map_custom_entries_witness :
    ∃ r pms, prepare_modules_loop clientTwo [] [vmGoodOnly] = (r, .ok pms) ∧
      (⟨[pmGood], []⟩ : Preparation).types = scan_types r := by
  apply C6_types_map_custom_entries.1 clientTwo [vmGoodOnly] ⟨[pmGood], []⟩
  simp [prepare, prepare_modules_loop, prepare_module_good_eval, scan_types, scan_types_go,
    prepare_type, regInt4, tyInt4, List.insertionSort]

/-- C7: every field of a successfully prepared module (query parameters,
row columns, params-struct fields) has `is_inner_nullable = false`; and
the single `inner` field of a Domain `PreparedType` and every field of a
Composite `PreparedType` have both `is_nullable` and `is_inner_nullable`
equal to `false`. -/
theorem C7_no_inner_nullable :
    (∀ (client : Client) (registrar r' : Registrar) (vm : ValidatedModule)
      (pm : PreparedModule), prepare_module client registrar vm = (r', .ok pm) →
      (∀ e ∈ pm.queries, ∀ f ∈ e.2.params, f.is_inner_nullable = false) ∧
      (∀ e ∈ pm.rows, ∀ f ∈ e.2.fields, f.is_inner_nullable = false) ∧
      (∀ e ∈ pm.params, ∀ f ∈ e.2.fields, f.is_inner_nullable = false)) ∧
    (∀ (registrar : Registrar) (name : String) (ty : CornucopiaType) (pt : PreparedType),
      prepare_type registrar name ty = some pt →
      (∀ fd, pt.content = .domain fd →
        fd.is_nullable = false ∧ fd.is_inner_nullable = false) ∧
      (∀ fs, pt.content = .composite fs →
        ∀ f ∈ fs, f.is_nullable = false ∧ f.is_inner_nullable = false)) := by
  constructor
  · intro client registrar r' vm pm h
    exact prepare_module_no_inner h
  · intro registrar name ty pt h
    cases ty with
    | simple pg_name c => simp [prepare_type] at h
    | array inner => simp [prepare_type] at h
    | domain inner => simp [prepare_type] at h
    | custom k sn c p sch n =>
      cases k with
      | enumData vs =>
        simp [prepare_type] at h
        subst h
        constructor
        · intro fd hfd
          simp at hfd
        · intro fs hfs
          simp at hfs
      | domainData inner =>
        simp [prepare_type] at h
        subst h
        constructor
        · intro fd hfd
          simp at hfd
          rw [← hfd]
          exact ⟨rfl, rfl⟩
        · intro fs hfs
          simp at hfs
      | compositeData fields =>
        simp [prepare_type] at h
        subst h
        constructor
        · intro fd hfd
          simp at hfd
        · intro fs hfs
          simp at hfs
          subst hfs
          intro f hf
          simp at hf
          obtain ⟨a, b, c2, hm, rfl⟩ := hf
          exact ⟨rfl, rfl⟩

/-- C7, witness: the module clause applied to the book run and the type
clause applied to a concrete domain type. -/
theorem C7_no_inner_nullable_witness :
    (∀ e ∈ pmBook.queries, ∀ f ∈ e.2.params, f.is_inner_nullable = false) ∧
    (∀ fd, (⟨"my_dom", "MyDom",
        .domain ⟨"inner", CornucopiaType.simple "int4" false, false, false⟩,
        true, true⟩ : PreparedType).content = .domain fd →
      fd.is_nullable = false ∧ fd.is_inner_nullable = false) := by
  refine ⟨(C7_no_inner_nullable.1 clientBook [] regBook vmBook pmBook
    prepare_module_book_eval).1, ?_⟩
  exact (C7_no_inner_nullable.2 []  "my_dom"
    (.custom (.domainData ("pg_catalog", "int4")) "MyDom" true true "public" "my_dom")
    ⟨"my_dom", "MyDom",
      .domain ⟨"inner", CornucopiaType.simple "int4" false, false, false⟩, true, true⟩
    rfl).1

/-- C10, counterexample: a PgCompatible query declaring no parameter names
against a statement with one parameter.  The query prepares successfully
with no params struct interned, although the statement has at least one
parameter — the interning is keyed to the declared-name/statement-parameter
zip, not to the statement's parameter count alone. -/
theorem C10_params_presence_cex :
    prepare_query clientOneParam emptyModule [] [] [] qPgNoParams =
      (⟨"queries/m.sql", "m", [("q3", ⟨"q3", [], none, "INSERT"⟩)], [], []⟩, [], .ok ()) ∧
    clientOneParam (ValidatedQuery.sql_str qPgNoParams) = .ok ⟨[pgInt4], []⟩ ∧
    ([pgInt4] : List PgType) ≠ [] := by
  refine ⟨?_, rfl, by simp⟩
  simp [prepare_query, clientOneParam, qPgNoParams, ValidatedQuery.sql_str,
    ValidatedQuery.name, register_param_fields_pg, build_row_fields, has_duplicate,
    has_duplicate_go, check_nullable_cols, register_row_fields, finalize_query, add_query,
    insertFull, lookupIdx, emptyModule, posd, pgInt4]

/-- C10, amended: for a successfully prepared fresh query, the interned
query's `row` is `none` exactly when the statement reports zero result
columns, and a params struct records the query's index exactly when the
query declares at least one parameter name AND the statement has at least
one parameter. -/
theorem C10_row_none_params_presence {client : Client} {module : PreparedModule}
    {registrar r' : Registrar} {param_types row_types : List TypeAnnotationListItem}
    {query : ValidatedQuery} {m' : PreparedModule} {u : Unit}
    (h : prepare_query client module registrar param_types row_types query
      = (m', r', .ok u))
    (hfresh : lookupIdx module.queries query.name.value = none)
    (hbound : ∀ e ∈ module.params, ∀ qx ∈ e.2.queries, qx < module.queries.length) :
    ∃ (stmt : Statement) (pq : PreparedQuery), client query.sql_str = .ok stmt ∧
      lookupIdx m'.queries query.name.value = some (module.queries.length, pq) ∧
      (pq.row = none ↔ stmt.columns = []) ∧
      ((declared_params_count query ≠ 0 ∧ stmt.params ≠ []) ↔
        ∃ e ∈ m'.params, module.queries.length ∈ e.2.queries) := by
  obtain ⟨stmt, rmid, r₂, pn, rn, pf, rf, nr, hclient, hbuild, hplen, hrlen, hpinner, hfin⟩ :=
    prepare_query_ok_spec h
  obtain ⟨hr', hpath, hname, row_idx, hrow, hqueries, hparams⟩ := finalize_query_ok_spec hfin
  have hins := insertFull_fresh
    (⟨query.name.value, pf, row_idx, query.sql_str⟩ : PreparedQuery) hfresh
  have hq1 : m'.queries = module.queries ++
      [(query.name.value, ⟨query.name.value, pf, row_idx, query.sql_str⟩)] := by
    rw [hqueries, add_query, hins]
  have hq2 : (add_query module.queries query.name.value pf row_idx query.sql_str).2
      = module.queries.length := by
    rw [add_query, hins]
  have hlook : lookupIdx m'.queries query.name.value =
      some (module.queries.length, ⟨query.name.value, pf, row_idx, query.sql_str⟩) := by
    rw [hq1]
    exact lookupIdx_append_right _ hfresh
  refine ⟨stmt, ⟨query.name.value, pf, row_idx, query.sql_str⟩, hclient, hlook, ?_, ?_⟩
  · rcases hrow with ⟨hre, hrm, hri⟩ | ⟨hre, p, har, hri⟩
    · have hrf : rf = [] := by
        cases hc : rf with
        | nil => rfl
        | cons a l =>
          rw [hc] at hre
          simp [List.isEmpty] at hre
      have hcols : stmt.columns = [] := by
        have hz : stmt.columns.length = 0 := by
          rw [← hrlen, hrf]
          rfl
        exact List.eq_nil_of_length_eq_zero hz
      simp [hri, hcols]
    · have hrf : rf ≠ [] := by
        intro hc
        rw [hc] at hre
        simp [List.isEmpty] at hre
      have hcols : stmt.columns ≠ [] := by
        intro hc
        rw [hc] at hrlen
        exact hrf (List.eq_nil_of_length_eq_zero (by simpa using hrlen))
      simp [hri, hcols]
  · rcases hparams with ⟨hpe, hpm⟩ | ⟨hpe, i2, hap⟩
    · have hpf : pf = [] := by
        cases hc : pf with
        | nil => rfl
        | cons a l =>
          rw [hc] at hpe
          simp [List.isEmpty] at hpe
      constructor
      · intro hand
        exfalso
        rw [hpf] at hplen
        have hz : min (declared_params_count query) stmt.params.length = 0 := hplen.symm
        rcases Nat.min_eq_zero_iff.mp hz with h0 | h0
        · exact hand.1 h0
        · apply hand.2
          cases hsp : stmt.params with
          | nil => rfl
          | cons a l => rw [hsp] at h0; simp at h0
      · intro hex
        exfalso
        obtain ⟨e, he, hq⟩ := hex
        rw [hpm] at he
        exact Nat.lt_irrefl _ (hbound e he _ hq)
    · have hpf : pf ≠ [] := by
        intro hc
        rw [hc] at hpe
        simp [List.isEmpty] at hpe
      constructor
      · intro _
        rw [hq2] at hap
        obtain ⟨p, old, hat, hpq⟩ := add_param_back_edge hap
        exact ⟨(pn.value, p), List.getElem?_mem hat, by rw [hpq]; simp⟩
      · intro _
        constructor
        · intro hdp
          rw [hdp] at hplen
          simp at hplen
          exact hpf hplen
        · intro hsp
          rw [hsp] at hplen
          simp at hplen
          exact hpf hplen

/-- C10, witness: the amended theorem applied to the book query — one
bind parameter, no result columns: the interned query has `row = none`
and the params struct records its index. -/
theorem C10_row_none_params_presence_witness :
    ∃ (stmt : Statement) (pq : PreparedQuery),
      clientBook (ValidatedQuery.sql_str qBook) = .ok stmt ∧
      lookupIdx
        [("insert_book", (⟨"insert_book", [titleField], none,
          "INSERT INTO Book(title) VALUES ($1)"⟩ : PreparedQuery))]
        "insert_book" = some (0, pq) ∧
      (pq.row = none ↔ stmt.columns = []) ∧
      ((declared_params_count qBook ≠ 0 ∧ stmt.params ≠ []) ↔
        ∃ e ∈ [("InsertBookParams", (⟨"InsertBookParams", [titleField], false,
          [0]⟩ : PreparedParams))], (0 : Nat) ∈ e.2.queries) := by
  have h : prepare_query clientBook emptyModule [] [] [] qBook =
      (⟨"queries/m.sql", "m",
        [("insert_book", ⟨"insert_book", [titleField], none,
          "INSERT INTO Book(title) VALUES ($1)"⟩)],
        [("InsertBookParams", ⟨"InsertBookParams", [titleField], false, [0]⟩)], []⟩,
        regBook, .ok ()) := by
    simp [prepare_query, clientBook, qBook, ValidatedQuery.sql_str, ValidatedQuery.name,
      build_param_fields_ext, check_nullable_params, register_param_fields_ext, register,
      lookupReg, builtinCopy, PgType.schema, PgType.name, pgText, build_row_fields,
      has_duplicate, has_duplicate_go, check_nullable_cols, register_row_fields,
      finalize_query, add_row, add_param, add_query, insertFull, lookupIdx, indexMapModify,
      named_struct_field, sort_by_name, List.insertionSort, List.orderedInsert,
      sequenceOption, position, Parsed.map, toUpperCamelCase, splitUnderscore,
      capitalizeSegment, Error.new, tyText, titleField, posd, regBook, emptyModule]
    decide
  exact C10_row_none_params_presence h rfl
    (by intro e he qx hq; simp [emptyModule] at he)
